import Mathlib

/-!
Verification of the retrieval subsystem of the ai-companion repository.

The Python sources are shallowly embedded: Python dicts keyed by chunk id
become association lists preserving insertion order, Python floats become
exact rationals (ℚ), fallible external calls (database reads, embedding
API calls) become `Except`/`Option` parameters, and `datetime` values
become an explicit calendar structure.  Each definition mirrors one
function of the source tree; spec-level restatements used for refinement
proofs are clearly marked.
-/

/- ### Hybrid search results (backend/src/retrieval/hybrid_search.py)

A row of the result dictionaries built by `_semantic_search` /
`_keyword_search`: `chunk_id`, `document_id`, payload fields, the
`relevance_score` and the `search_type` tag.  Chunk and document ids are
modelled as naturals, scores as rationals. -/
structure HResult where
  chunk_id : Nat
  document_id : Nat
  title : String
  source_type : String
  created_at : Int
  relevance_score : ℚ
  search_type : String
deriving DecidableEq

/-- Score contributed by a result at 0-indexed `rank`:
`rrf_score = 1.0 / (k + rank + 1)` in `_reciprocal_rank_fusion`. -/
def rrfScore (k : ℚ) (rank : Nat) : ℚ := 1 / (k + rank + 1)

/-- Python `scores[chunk_id] = scores.get(chunk_id, 0) + rrf_score` on an
insertion-ordered dict, as an association-list update. -/
def insertAdd : List (Nat × ℚ) → Nat → ℚ → List (Nat × ℚ)
  | [], cid, s => [(cid, s)]
  | (c, v) :: rest, cid, s =>
      if c = cid then (c, v + s) :: rest else (c, v) :: insertAdd rest cid s

/-- The `for rank, result in enumerate(results)` loop of
`_reciprocal_rank_fusion` adding `1/(k+rank+1)` per result, starting at
the given rank (0 at the call site). -/
def addRanked (k : ℚ) : List (Nat × ℚ) → List HResult → Nat → List (Nat × ℚ)
  | sc, [], _ => sc
  | sc, r :: rest, rank => addRanked k (insertAdd sc r.chunk_id (rrfScore k rank)) rest (rank + 1)

/-- First-match lookup in an insertion-ordered dict of results. -/
def findRes : List (Nat × HResult) → Nat → Option HResult
  | [], _ => none
  | (c, r) :: rest, cid => if c = cid then some r else findRes rest cid

/-- The `all_results` loop of `_reciprocal_rank_fusion`: walk
`semantic_results + keyword_results`, keeping the first result seen for
each chunk id. -/
def collectResults : List (Nat × HResult) → List HResult → List (Nat × HResult)
  | m, [] => m
  | m, r :: rest =>
      collectResults (if (findRes m r.chunk_id).isSome then m else m ++ [(r.chunk_id, r)]) rest

/-- `_reciprocal_rank_fusion(semantic_results, keyword_results, limit, k)`:
score both lists by reciprocal rank into one dict, sort the dict items by
score descending, take the top `limit`, and rebuild results with the fused
score and `search_type = "hybrid"`.  The call site uses the default
`k = 60`. -/
def reciprocalRankFusion (k : ℚ) (semanticResults keywordResults : List HResult)
    (limit : Nat) : List HResult :=
  let scores := addRanked k (addRanked k [] semanticResults 0) keywordResults 0
  let allResults := collectResults [] (semanticResults ++ keywordResults)
  let sortedChunks := scores.mergeSort (fun a b => decide (b.2 ≤ a.2))
  (sortedChunks.take limit).filterMap (fun p =>
    (findRes allResults p.1).map
      (fun r => { r with relevance_score := p.2, search_type := "hybrid" }))

/-- Spec-level restatement (from the claim, for refinement): the total
reciprocal-rank contribution of chunk `cid` over a ranked list, the first
element sitting at rank `rank`. -/
def rrfSumFrom (k : ℚ) (cid : Nat) : List HResult → Nat → ℚ
  | [], _ => 0
  | r :: rest, rank =>
      (if r.chunk_id = cid then rrfScore k rank else 0) + rrfSumFrom k cid rest (rank + 1)

/-- Spec-level restatement: the fused score of a chunk is the sum of its
reciprocal-rank contributions over both input lists (0-indexed ranks). -/
def fusedScore (k : ℚ) (semanticResults keywordResults : List HResult) (cid : Nat) : ℚ :=
  rrfSumFrom k cid semanticResults 0 + rrfSumFrom k cid keywordResults 0

/- ### Failure semantics of `search` (hybrid_search.py)

`_semantic_search` and `_keyword_search` wrap the database round trip in
`try/except` and return `[]` on any exception; the outcome of the round
trip is modelled as an `Except` value. -/

/-- `_semantic_search`: the rows on success, `[]` when the query raises. -/
def semanticSearch (dbOutcome : Except String (List HResult)) : List HResult :=
  match dbOutcome with
  | Except.ok rows => rows
  | Except.error _ => []

/-- `_keyword_search`: the rows on success, `[]` when the query raises. -/
def keywordSearch (dbOutcome : Except String (List HResult)) : List HResult :=
  match dbOutcome with
  | Except.ok rows => rows
  | Except.error _ => []

/-- `search`: run both passes (each absorbing its own failure) and fuse
with reciprocal rank fusion at the default `k = 60`. -/
def hybridSearch (semOutcome kwOutcome : Except String (List HResult))
    (limit : Nat) : List HResult :=
  reciprocalRankFusion 60 (semanticSearch semOutcome) (keywordSearch kwOutcome) limit

/- ### Lemmas about the fusion bookkeeping -/

/-- Score lookup in the association-list dict (0 when absent, matching
`scores.get(chunk_id, 0)`). -/
def lookupScore : List (Nat × ℚ) → Nat → ℚ
  | [], _ => 0
  | (c, v) :: rest, cid => if c = cid then v else lookupScore rest cid

theorem lookupScore_insertAdd (sc : List (Nat × ℚ)) (cid : Nat) (s : ℚ) (x : Nat) :
    lookupScore (insertAdd sc cid s) x = lookupScore sc x + (if cid = x then s else 0) := by
  induction sc with
  | nil =>
      simp only [insertAdd, lookupScore]
      by_cases h : cid = x
      · subst h; simp [lookupScore]
      · simp [lookupScore, fun h' : x = cid => h h'.symm, h]
  | cons p rest ih =>
      obtain ⟨c, v⟩ := p
      simp only [insertAdd]
      by_cases hc : c = cid
      · subst hc
        by_cases hx : c = x
        · subst hx; simp [lookupScore]
        · simp [lookupScore, hx, fun h' : c = x => hx h']
      · simp only [if_neg hc, lookupScore]
        by_cases hx : c = x
        · subst hx
          have : ¬ c = cid := hc
          simp [if_pos rfl, fun h' : c = cid => hc h']
          intro h'; exact absurd h'.symm hc
        · simp [if_neg hx, ih]

theorem mem_keys_insertAdd (sc : List (Nat × ℚ)) (cid : Nat) (s : ℚ) (x : Nat) :
    x ∈ (insertAdd sc cid s).map Prod.fst ↔ x ∈ sc.map Prod.fst ∨ x = cid := by
  induction sc with
  | nil => simp [insertAdd]
  | cons p rest ih =>
      obtain ⟨c, v⟩ := p
      simp only [insertAdd]
      by_cases hc : c = cid
      · subst hc; simp; tauto
      · simp only [if_neg hc, List.map_cons, List.mem_cons, ih]
        tauto

theorem nodup_keys_insertAdd (sc : List (Nat × ℚ)) (cid : Nat) (s : ℚ)
    (h : (sc.map Prod.fst).Nodup) : ((insertAdd sc cid s).map Prod.fst).Nodup := by
  induction sc with
  | nil => simp [insertAdd]
  | cons p rest ih =>
      obtain ⟨c, v⟩ := p
      simp only [List.map_cons, List.nodup_cons] at h
      simp only [insertAdd]
      by_cases hc : c = cid
      · subst hc; simpa [List.nodup_cons] using h
      · simp only [if_neg hc, List.map_cons, List.nodup_cons]
        refine ⟨?_, ih h.2⟩
        intro hmem
        rcases (mem_keys_insertAdd rest cid s c).1 hmem with h' | h'
        · exact h.1 h'
        · exact hc h'

theorem lookupScore_addRanked (k : ℚ) (l : List HResult) (sc : List (Nat × ℚ))
    (rank : Nat) (x : Nat) :
    lookupScore (addRanked k sc l rank) x = lookupScore sc x + rrfSumFrom k x l rank := by
  induction l generalizing sc rank with
  | nil => simp [addRanked, rrfSumFrom]
  | cons r rest ih =>
      simp only [addRanked, rrfSumFrom, ih, lookupScore_insertAdd]
      by_cases h : r.chunk_id = x
      · simp [h]; ring
      · simp [h]

theorem mem_keys_addRanked (k : ℚ) (l : List HResult) (sc : List (Nat × ℚ))
    (rank : Nat) (x : Nat) :
    x ∈ (addRanked k sc l rank).map Prod.fst ↔
      x ∈ sc.map Prod.fst ∨ x ∈ l.map HResult.chunk_id := by
  induction l generalizing sc rank with
  | nil => simp [addRanked]
  | cons r rest ih =>
      simp only [addRanked, ih, mem_keys_insertAdd, List.map_cons, List.mem_cons]
      tauto

theorem nodup_keys_addRanked (k : ℚ) (l : List HResult) (sc : List (Nat × ℚ))
    (rank : Nat) (h : (sc.map Prod.fst).Nodup) :
    ((addRanked k sc l rank).map Prod.fst).Nodup := by
  induction l generalizing sc rank with
  | nil => simpa [addRanked] using h
  | cons r rest ih => exact ih _ _ (nodup_keys_insertAdd _ _ _ h)

theorem mem_eq_lookupScore (sc : List (Nat × ℚ)) (h : (sc.map Prod.fst).Nodup)
    (c : Nat) (v : ℚ) (hm : (c, v) ∈ sc) : v = lookupScore sc c := by
  induction sc with
  | nil => cases hm
  | cons p rest ih =>
      obtain ⟨c', v'⟩ := p
      simp only [List.map_cons, List.nodup_cons] at h
      rcases List.mem_cons.1 hm with he | hm'
      · injection he with h1 h2
        subst h1
        subst h2
        simp [lookupScore]
      · have hne : c' ≠ c := by
          intro hcc
          subst hcc
          exact h.1 (List.mem_map.2 ⟨(c', v), hm', rfl⟩)
        simpa [lookupScore, if_neg hne] using ih h.2 hm'

theorem findRes_append_single (m : List (Nat × HResult)) (c : Nat) (r : HResult) (cid : Nat) :
    findRes (m ++ [(c, r)]) cid =
      ((findRes m cid).orElse (fun _ => if c = cid then some r else none)) := by
  induction m with
  | nil => simp [findRes]
  | cons p rest ih =>
      obtain ⟨c', r'⟩ := p
      by_cases h : c' = cid
      · simp [findRes, h]
      · simpa [findRes, h] using ih

theorem findRes_collect_isSome (l : List HResult) (m : List (Nat × HResult)) (cid : Nat)
    (h : (findRes m cid).isSome ∨ cid ∈ l.map HResult.chunk_id) :
    (findRes (collectResults m l) cid).isSome := by
  induction l generalizing m with
  | nil =>
      rcases h with h | h
      · simpa [collectResults] using h
      · cases h
  | cons r rest ih =>
      simp only [collectResults]
      by_cases hs : (findRes m r.chunk_id).isSome
      · simp only [if_pos hs]
        refine ih m ?_
        rcases h with h | h
        · exact Or.inl h
        · rw [List.map_cons] at h
          rcases List.mem_cons.1 h with he | hm
          · subst he; exact Or.inl hs
          · exact Or.inr hm
      · simp only [if_neg hs]
        refine ih _ ?_
        rcases h with h | h
        · left
          rw [findRes_append_single]
          rcases ho : findRes m cid with _ | r'
          · rw [ho] at h; simp at h
          · simp [Option.orElse, ho]
        · rw [List.map_cons] at h
          rcases List.mem_cons.1 h with he | hm
          · left
            rw [findRes_append_single]
            rcases ho : findRes m cid with _ | r'
            · simp [Option.orElse, ho, he]
            · simp [Option.orElse, ho]
          · exact Or.inr hm

theorem collect_inv (l : List HResult) (m : List (Nat × HResult))
    (hm : ∀ p ∈ m, (p.2).chunk_id = p.1) :
    ∀ p ∈ collectResults m l, (p.2).chunk_id = p.1 := by
  induction l generalizing m with
  | nil => simpa [collectResults] using hm
  | cons r rest ih =>
      simp only [collectResults]
      by_cases hs : (findRes m r.chunk_id).isSome
      · simp only [if_pos hs]; exact ih m hm
      · simp only [if_neg hs]
        refine ih _ ?_
        intro p hp
        rcases List.mem_append.1 hp with h | h
        · exact hm p h
        · simp only [List.mem_singleton] at h
          subst h; rfl

theorem findRes_mem (m : List (Nat × HResult)) (cid : Nat) (r : HResult)
    (h : findRes m cid = some r) : (cid, r) ∈ m := by
  induction m with
  | nil => simp [findRes] at h
  | cons p rest ih =>
      obtain ⟨c', r'⟩ := p
      by_cases hc : c' = cid
      · subst hc
        simp only [findRes] at h
        simp only [if_pos trivial, Option.some.injEq, if_true, eq_self_iff_true, ite_true] at h
        have h' : r' = r := by simpa using h
        subst h'
        exact List.mem_cons_self _ _
      · simp only [findRes, if_neg hc] at h
        exact List.mem_cons_of_mem _ (ih h)

theorem filterMap_results_maps (m : List (Nat × HResult))
    (hm : ∀ p ∈ m, (p.2).chunk_id = p.1) (l : List (Nat × ℚ))
    (hl : ∀ p ∈ l, (findRes m p.1).isSome) :
    ((l.filterMap (fun p => (findRes m p.1).map
        (fun r => { r with relevance_score := p.2, search_type := "hybrid" }))).map
          HResult.chunk_id = l.map Prod.fst) ∧
    ((l.filterMap (fun p => (findRes m p.1).map
        (fun r => { r with relevance_score := p.2, search_type := "hybrid" }))).map
          HResult.relevance_score = l.map Prod.snd) := by
  induction l with
  | nil => simp
  | cons p rest ih =>
      have hp := hl p (List.mem_cons_self _ _)
      rcases ho : findRes m p.1 with _ | r
      · rw [ho] at hp; simp at hp
      · have hrest := ih (fun q hq => hl q (List.mem_cons_of_mem _ hq))
        have hcid : r.chunk_id = p.1 := hm (p.1, r) (findRes_mem m p.1 r ho)
        constructor
        · simp [List.filterMap_cons, ho, hrest.1, hcid]
        · simp [List.filterMap_cons, ho, hrest.2]

/-- C1: `_reciprocal_rank_fusion` at the default `k = 60` assigns every
distinct chunk id the fused score `Σ 1/(60 + rank + 1)` over its
occurrences in either ranked input list (accumulating both contributions
when present in both), returns results tagged `search_type = "hybrid"`
carrying that fused score as `relevance_score`, sorted descending by
fused score, one entry per distinct chunk id, truncated to `limit` (all
distinct chunks appear when `limit` is not exceeded), and when `limit`
binds the retained chunks are the top-scored ones: any distinct input
chunk absent from the output has fused score at most the score of every
returned entry. -/
theorem rrf_fusion_characterization (semantic keyword : List HResult) (limit : Nat) :
    (∀ r ∈ reciprocalRankFusion 60 semantic keyword limit,
        r.search_type = "hybrid" ∧
        r.relevance_score = fusedScore 60 semantic keyword r.chunk_id ∧
        r.chunk_id ∈ (semantic ++ keyword).map HResult.chunk_id) ∧
    (reciprocalRankFusion 60 semantic keyword limit).length
        = min limit ((semantic ++ keyword).map HResult.chunk_id).toFinset.card ∧
    ((reciprocalRankFusion 60 semantic keyword limit).map HResult.chunk_id).Nodup ∧
    (reciprocalRankFusion 60 semantic keyword limit).Pairwise
        (fun a b => b.relevance_score ≤ a.relevance_score) ∧
    (((semantic ++ keyword).map HResult.chunk_id).toFinset.card ≤ limit →
      ∀ cid ∈ (semantic ++ keyword).map HResult.chunk_id,
        ∃ r ∈ reciprocalRankFusion 60 semantic keyword limit, r.chunk_id = cid) ∧
    (∀ cid ∈ (semantic ++ keyword).map HResult.chunk_id,
      cid ∉ (reciprocalRankFusion 60 semantic keyword limit).map HResult.chunk_id →
      ∀ r ∈ reciprocalRankFusion 60 semantic keyword limit,
        fusedScore 60 semantic keyword cid ≤ r.relevance_score) := by
  classical
  set S : List (Nat × ℚ) := addRanked 60 (addRanked 60 [] semantic 0) keyword 0 with hS
  set M : List (Nat × HResult) := collectResults [] (semantic ++ keyword) with hMdef
  set le : (Nat × ℚ) → (Nat × ℚ) → Bool := fun a b => decide (b.2 ≤ a.2) with hle
  set sorted : List (Nat × ℚ) := S.mergeSort le with hsorteddef
  have hout : reciprocalRankFusion 60 semantic keyword limit =
      (sorted.take limit).filterMap (fun p => (findRes M p.1).map
        (fun r => { r with relevance_score := p.2, search_type := "hybrid" })) := rfl
  have hkeysnodup : (S.map Prod.fst).Nodup := by
    exact nodup_keys_addRanked _ _ _ _ (nodup_keys_addRanked _ _ _ _ List.nodup_nil)
  have hkeysmem : ∀ x, x ∈ S.map Prod.fst ↔ x ∈ (semantic ++ keyword).map HResult.chunk_id := by
    intro x
    rw [hS, mem_keys_addRanked, mem_keys_addRanked]
    simp
  have hlook : ∀ x, lookupScore S x = fusedScore 60 semantic keyword x := by
    intro x
    rw [hS, lookupScore_addRanked, lookupScore_addRanked]
    simp [lookupScore, fusedScore]
  have hMinv : ∀ p ∈ M, (p.2).chunk_id = p.1 := collect_inv _ _ (by simp)
  have hperm : sorted.Perm S := List.mergeSort_perm S le
  have hsorted : sorted.Pairwise (fun a b => (b.2 : ℚ) ≤ a.2) := by
    have h1 := @List.sorted_mergeSort _ le
      (fun a b c hab hbc => by
        simp only [hle, decide_eq_true_eq] at hab hbc ⊢
        exact le_trans hbc hab)
      (fun a b => by simp only [hle, Bool.or_eq_true, decide_eq_true_eq]; exact le_total b.2 a.2)
      S
    rw [← hsorteddef] at h1
    exact h1.imp (by intro a b hab; simpa [hle, decide_eq_true_eq] using hab)
  have hSlen : S.length = ((semantic ++ keyword).map HResult.chunk_id).toFinset.card := by
    have h1 : S.length = (S.map Prod.fst).length := (List.length_map _ _).symm
    have h2 : (S.map Prod.fst).toFinset = ((semantic ++ keyword).map HResult.chunk_id).toFinset := by
      apply Finset.ext
      intro x
      simp only [List.mem_toFinset]
      exact hkeysmem x
    rw [h1, ← List.toFinset_card_of_nodup hkeysnodup, h2]
  have htot : ∀ p ∈ sorted.take limit, (findRes M p.1).isSome := by
    intro p hp
    have hmem : p ∈ S := hperm.mem_iff.1 (List.mem_of_mem_take hp)
    refine findRes_collect_isSome _ _ _ (Or.inr ?_)
    exact (hkeysmem p.1).1 (List.mem_map.2 ⟨p, hmem, rfl⟩)
  obtain ⟨hmapid, hmapsc⟩ := filterMap_results_maps M hMinv (sorted.take limit) htot
  rw [← hout] at hmapid hmapsc
  refine ⟨?_, ?_, ?_, ?_, ?_, ?_⟩
  · intro r hr
    rw [hout] at hr
    obtain ⟨p, hp, hpr⟩ := List.mem_filterMap.1 hr
    rcases ho : findRes M p.1 with _ | r₀
    · rw [ho] at hpr; simp at hpr
    · rw [ho] at hpr
      rw [Option.map_some'] at hpr
      rw [Option.some.injEq] at hpr
      have hcid : r₀.chunk_id = p.1 := hMinv (p.1, r₀) (findRes_mem M p.1 r₀ ho)
      have hmemS : p ∈ S := hperm.mem_iff.1 (List.mem_of_mem_take hp)
      have hscore : p.2 = lookupScore S p.1 := mem_eq_lookupScore S hkeysnodup p.1 p.2 hmemS
      refine ⟨by rw [← hpr], ?_, ?_⟩
      · rw [← hpr]
        simp only
        rw [hscore, hlook, hcid]
      · rw [← hpr]
        simp only
        rw [hcid]
        exact (hkeysmem p.1).1 (List.mem_map.2 ⟨p, hmemS, rfl⟩)
  · have h1 : (reciprocalRankFusion 60 semantic keyword limit).length
        = ((sorted.take limit).map Prod.fst).length := by
      rw [← hmapid, List.length_map]
    rw [h1, List.length_map, List.length_take, hperm.length_eq, hSlen]
  · rw [hmapid]
    have h1 : ((sorted.take limit).map Prod.fst).Sublist (sorted.map Prod.fst) :=
      (List.take_sublist _ _).map _
    have h2 : (sorted.map Prod.fst).Nodup := ((hperm.map Prod.fst).nodup_iff).2 hkeysnodup
    exact h2.sublist h1
  · have h1 : (sorted.take limit).Pairwise (fun a b => (b.2 : ℚ) ≤ a.2) :=
      hsorted.sublist (List.take_sublist _ _)
    have h2 : ((sorted.take limit).map Prod.snd).Pairwise (fun a b : ℚ => b ≤ a) :=
      (List.pairwise_map).2 h1
    rw [← hmapsc] at h2
    exact (List.pairwise_map).1 h2
  · intro hcard cid hcid
    have hlen : sorted.length ≤ limit := by
      rw [hperm.length_eq, hSlen]; exact hcard
    have htake : sorted.take limit = sorted := List.take_of_length_le hlen
    have hmem : cid ∈ (reciprocalRankFusion 60 semantic keyword limit).map HResult.chunk_id := by
      rw [hmapid, htake]
      exact ((hperm.map Prod.fst).mem_iff).2 ((hkeysmem cid).2 hcid)
    obtain ⟨r, hr, hrc⟩ := List.mem_map.1 hmem
    exact ⟨r, hr, hrc⟩
  · intro cid hcid hnot r hr
    obtain ⟨p, hpS, hp1⟩ := List.mem_map.1 ((hkeysmem cid).2 hcid)
    have hptake : p ∉ sorted.take limit := by
      intro hp
      exact hnot (by rw [hmapid]; exact List.mem_map.2 ⟨p, hp, hp1⟩)
    have hpsorted : p ∈ sorted := hperm.mem_iff.2 hpS
    have hsplit : sorted.take limit ++ sorted.drop limit = sorted :=
      List.take_append_drop _ _
    have hpapp : p ∈ sorted.take limit ++ sorted.drop limit := by
      rw [hsplit]; exact hpsorted
    have hpdrop : p ∈ sorted.drop limit := by
      rcases List.mem_append.1 hpapp with h | h
      · exact absurd h hptake
      · exact h
    have hcross : ∀ a ∈ sorted.take limit, ∀ b ∈ sorted.drop limit, (b.2 : ℚ) ≤ a.2 := by
      have h1 := hsorted
      rw [← hsplit] at h1
      exact (List.pairwise_append.1 h1).2.2
    rw [hout] at hr
    obtain ⟨q, hq, hqr⟩ := List.mem_filterMap.1 hr
    rcases ho : findRes M q.1 with _ | r₀
    · rw [ho] at hqr; simp at hqr
    · rw [ho] at hqr
      rw [Option.map_some'] at hqr
      rw [Option.some.injEq] at hqr
      rw [← hqr]
      show fusedScore 60 semantic keyword cid ≤ q.2
      have hpS' : (cid, p.2) ∈ S := by rw [← hp1]; exact hpS
      have hs : p.2 = lookupScore S cid := mem_eq_lookupScore S hkeysnodup cid p.2 hpS'
      rw [← hlook cid, ← hs]
      exact hcross q hq p hpdrop

/-- Concrete results used by closed witness instances. -/
def hresA : HResult := ⟨1, 10, "a", "text", 0, 1, "semantic"⟩

/-- Concrete results used by closed witness instances. -/
def hresB : HResult := ⟨2, 20, "b", "pdf", 0, 1, "keyword"⟩

/-- Witness: the completeness conjunct of `rrf_fusion_characterization` at a
concrete pair of one-element lists, and the top-score conjunct at a
two-element semantic list truncated to `limit = 1` (chunk 2 is dropped and
scores at most the kept entry). -/
theorem rrf_fusion_characterization_witness :
    (∃ r ∈ reciprocalRankFusion 60 [hresA] [hresB] 2, r.chunk_id = 1) ∧
    ((reciprocalRankFusion 60 [hresA, hresB] [] 1).all
        (fun r => decide (fusedScore 60 [hresA, hresB] [] 2 ≤ r.relevance_score)) = true) := by
  constructor
  · exact (rrf_fusion_characterization [hresA] [hresB] 2).2.2.2.2.1 (by decide) 1 (by decide)
  · rw [List.all_eq_true]
    intro r hr
    exact decide_eq_true
      ((rrf_fusion_characterization [hresA, hresB] [] 1).2.2.2.2.2 2 (by decide)
        (by with_unfolding_all decide) r hr)

theorem rrfScore_anti (k : ℚ) (hk : 0 ≤ k) {m n : Nat} (h : m ≤ n) :
    rrfScore k n ≤ rrfScore k m := by
  unfold rrfScore
  have hm : (0 : ℚ) < k + m + 1 := by positivity
  have hmn : (k + m + 1 : ℚ) ≤ k + n + 1 := by
    have : (m : ℚ) ≤ n := by exact_mod_cast h
    linarith
  exact one_div_le_one_div_of_le hm hmn

theorem rrfSumFrom_append (k : ℚ) (cid : Nat) (l₁ l₂ : List HResult) (n : Nat) :
    rrfSumFrom k cid (l₁ ++ l₂) n = rrfSumFrom k cid l₁ n + rrfSumFrom k cid l₂ (n + l₁.length) := by
  induction l₁ generalizing n with
  | nil => simp [rrfSumFrom]
  | cons r rest ih =>
      rw [show (r :: rest) ++ l₂ = r :: (rest ++ l₂) from rfl]
      rw [show rrfSumFrom k cid (r :: (rest ++ l₂)) n
          = (if r.chunk_id = cid then rrfScore k n else 0)
            + rrfSumFrom k cid (rest ++ l₂) (n + 1) from rfl]
      rw [show rrfSumFrom k cid (r :: rest) n
          = (if r.chunk_id = cid then rrfScore k n else 0)
            + rrfSumFrom k cid rest (n + 1) from rfl]
      rw [ih, List.length_cons]
      have h2 : n + (rest.length + 1) = n + 1 + rest.length := by omega
      rw [h2]
      ring

theorem rrfSumFrom_eq_zero (k : ℚ) (cid : Nat) (l : List HResult) (n : Nat)
    (h : cid ∉ l.map HResult.chunk_id) : rrfSumFrom k cid l n = 0 := by
  induction l generalizing n with
  | nil => simp [rrfSumFrom]
  | cons r rest ih =>
      rw [List.map_cons] at h
      have h1 : r.chunk_id ≠ cid := by
        intro he
        exact h (by rw [← he]; exact List.mem_cons_self _ _)
      simp only [rrfSumFrom, if_neg h1, zero_add]
      exact ih (n + 1) (fun hm => h (List.mem_cons_of_mem _ hm))

theorem rrfSumFrom_move_earlier (k : ℚ) (hk : 0 ≤ k) (a₁ a₂ b : List HResult) (x : HResult)
    (h : x.chunk_id ∉ a₂.map HResult.chunk_id) (n : Nat) :
    rrfSumFrom k x.chunk_id (a₁ ++ (a₂ ++ x :: b)) n
      ≤ rrfSumFrom k x.chunk_id (a₁ ++ x :: (a₂ ++ b)) n := by
  have hz : ∀ m, rrfSumFrom k x.chunk_id a₂ m = 0 := fun m => rrfSumFrom_eq_zero k _ a₂ m h
  have hlhs : rrfSumFrom k x.chunk_id (a₂ ++ x :: b) (n + a₁.length)
      = rrfScore k (n + a₁.length + a₂.length)
        + rrfSumFrom k x.chunk_id b (n + a₁.length + a₂.length + 1) := by
    rw [rrfSumFrom_append, hz]
    simp [rrfSumFrom]
  have hrhs : rrfSumFrom k x.chunk_id (x :: (a₂ ++ b)) (n + a₁.length)
      = rrfScore k (n + a₁.length)
        + rrfSumFrom k x.chunk_id b (n + a₁.length + 1 + a₂.length) := by
    rw [show rrfSumFrom k x.chunk_id (x :: (a₂ ++ b)) (n + a₁.length)
        = (if x.chunk_id = x.chunk_id then rrfScore k (n + a₁.length) else 0)
          + rrfSumFrom k x.chunk_id (a₂ ++ b) (n + a₁.length + 1) from rfl]
    rw [if_pos rfl, rrfSumFrom_append, hz]
    ring
  have hidx : n + a₁.length + a₂.length + 1 = n + a₁.length + 1 + a₂.length := by omega
  rw [hidx] at hlhs
  have hL : rrfSumFrom k x.chunk_id (a₁ ++ (a₂ ++ x :: b)) n
      = rrfSumFrom k x.chunk_id a₁ n + (rrfScore k (n + a₁.length + a₂.length)
        + rrfSumFrom k x.chunk_id b (n + a₁.length + 1 + a₂.length)) := by
    rw [rrfSumFrom_append, hlhs]
  have hR : rrfSumFrom k x.chunk_id (a₁ ++ x :: (a₂ ++ b)) n
      = rrfSumFrom k x.chunk_id a₁ n + (rrfScore k (n + a₁.length)
        + rrfSumFrom k x.chunk_id b (n + a₁.length + 1 + a₂.length)) := by
    rw [rrfSumFrom_append, hrhs]
  rw [hL, hR]
  have hmono : rrfScore k (n + a₁.length + a₂.length) ≤ rrfScore k (n + a₁.length) :=
    rrfScore_anti k hk (Nat.le_add_right _ _)
  linarith

/-- C9: reciprocal rank fusion is monotonic in rank.  Moving a chunk's
occurrence to an earlier rank in either input list (the surrounding
entries keeping their relative order, the chunk occurring nowhere else in
the entries it jumps over) never decreases its fused score under
`fusedScore` at the default `k = 60`. -/
theorem rrf_monotonic_in_rank (a₁ a₂ b keyword : List HResult) (x : HResult)
    (h : x.chunk_id ∉ a₂.map HResult.chunk_id) :
    fusedScore 60 (a₁ ++ (a₂ ++ x :: b)) keyword x.chunk_id
      ≤ fusedScore 60 (a₁ ++ x :: (a₂ ++ b)) keyword x.chunk_id ∧
    fusedScore 60 keyword (a₁ ++ (a₂ ++ x :: b)) x.chunk_id
      ≤ fusedScore 60 keyword (a₁ ++ x :: (a₂ ++ b)) x.chunk_id := by
  have hmove := rrfSumFrom_move_earlier 60 (by norm_num) a₁ a₂ b x h 0
  constructor
  · unfold fusedScore
    have := hmove
    linarith
  · unfold fusedScore
    linarith

/-- Witness: `rrf_monotonic_in_rank` applied at concrete lists — moving
`hresA` ahead of `hresB` in the semantic list does not decrease its fused
score. -/
theorem rrf_monotonic_in_rank_witness :
    fusedScore 60 ([] ++ ([hresB] ++ hresA :: [])) [] hresA.chunk_id
      ≤ fusedScore 60 ([] ++ hresA :: ([hresB] ++ [])) [] hresA.chunk_id :=
  (rrf_monotonic_in_rank [] [hresB] [] [] hresA (by decide)).1

/-- C8: an error in one retrieval signal never fails the whole search.
When the semantic pass raises, `search` still returns, fusing the empty
semantic list with the keyword results; symmetrically for a keyword-pass
error. -/
theorem hybrid_search_degrades_on_error (e : String) (rows : List HResult) (limit : Nat) :
    hybridSearch (Except.error e) (Except.ok rows) limit
      = reciprocalRankFusion 60 [] rows limit ∧
    hybridSearch (Except.ok rows) (Except.error e) limit
      = reciprocalRankFusion 60 rows [] limit ∧
    hybridSearch (Except.error e) (Except.error e) limit
      = reciprocalRankFusion 60 [] [] limit :=
  ⟨rfl, rfl, rfl⟩

/- ### Python string primitives

Strings manipulated by the Python sources are modelled as `List Char`;
`lower`, `strip`, `split`, substring membership (`in`) and substring
counting (`str.count`, non-overlapping) are reimplemented below. -/

/-- Python `str.lower()` (ASCII approximation). -/
def pyToLower (s : List Char) : List Char := s.map Char.toLower

/-- The characters Python `str.strip()` / `str.split()` treat as
whitespace. -/
def pyIsSpaceChar (c : Char) : Bool :=
  c = ' ' || c = '\t' || c = '\n' || c = '\r' || c = Char.ofNat 11 || c = Char.ofNat 12

/-- Python `str.strip()` with no argument. -/
def pyStrip (s : List Char) : List Char :=
  ((s.dropWhile pyIsSpaceChar).reverse.dropWhile pyIsSpaceChar).reverse

/-- Python `str.strip(chars)`: drop the given characters from both ends. -/
def pyStripChars (chars : List Char) (s : List Char) : List Char :=
  ((s.dropWhile (fun c => chars.contains c)).reverse.dropWhile
    (fun c => chars.contains c)).reverse

/-- Helper for `pySplitWs`, accumulating the current word reversed. -/
def pySplitWsAux : List Char → List Char → List (List Char)
  | [], acc => if acc.isEmpty then [] else [acc.reverse]
  | c :: rest, acc =>
      if pyIsSpaceChar c then
        if acc.isEmpty then pySplitWsAux rest []
        else acc.reverse :: pySplitWsAux rest []
      else pySplitWsAux rest (c :: acc)

/-- Python `str.split()` with no argument: split on whitespace runs,
discarding empty pieces. -/
def pySplitWs (s : List Char) : List (List Char) := pySplitWsAux s []

/-- Python substring membership `needle in hay`. -/
def isSubstr : List Char → List Char → Bool
  | needle, [] => needle.isEmpty
  | needle, c :: rest => needle.isPrefixOf (c :: rest) || isSubstr needle rest

/-- Python `str.isalpha()`: nonempty and all alphabetic. -/
def pyIsAlpha (s : List Char) : Bool := !s.isEmpty && s.all Char.isAlpha

/-- Python `str.isdigit()`: nonempty and all digits. -/
def pyIsDigit (s : List Char) : Bool := !s.isEmpty && s.all Char.isDigit

/- ### Python `datetime` (naive), calendar arithmetic

`datetime.now()` values are modelled as explicit calendar records; the
`timedelta` / `relativedelta` arithmetic used by the two temporal
resolvers is implemented on them. -/

structure PyDateTime where
  year : Int
  month : Nat
  day : Nat
  hour : Nat
  minute : Nat
  second : Nat
  microsecond : Nat
deriving DecidableEq

def isLeapYear (y : Int) : Bool := (y % 4 = 0 && y % 100 ≠ 0) || y % 400 = 0

def daysInMonth (y : Int) (m : Nat) : Nat :=
  if m = 2 then (if isLeapYear y then 29 else 28)
  else if m = 4 || m = 6 || m = 9 || m = 11 then 30
  else 31

/-- One calendar day earlier, same time of day (`timedelta(days=1)` /
`relativedelta(days=1)` subtraction on a naive datetime). -/
def subOneDay (dt : PyDateTime) : PyDateTime :=
  if dt.day > 1 then { dt with day := dt.day - 1 }
  else if dt.month > 1 then
    { dt with month := dt.month - 1, day := daysInMonth dt.year (dt.month - 1) }
  else { dt with year := dt.year - 1, month := 12, day := 31 }

/-- One calendar day later, same time of day. -/
def addOneDay (dt : PyDateTime) : PyDateTime :=
  if dt.day < daysInMonth dt.year dt.month then { dt with day := dt.day + 1 }
  else if dt.month < 12 then { dt with month := dt.month + 1, day := 1 }
  else { dt with year := dt.year + 1, month := 1, day := 1 }

def subDays (dt : PyDateTime) : Nat → PyDateTime
  | 0 => dt
  | n + 1 => subDays (subOneDay dt) n

def addDays (dt : PyDateTime) : Nat → PyDateTime
  | 0 => dt
  | n + 1 => addDays (addOneDay dt) n

/-- Python `dt.replace(hour=h, minute=m, second=s, microsecond=us)`. -/
def setTime (dt : PyDateTime) (h m s us : Nat) : PyDateTime :=
  { dt with hour := h, minute := m, second := s, microsecond := us }

/-- Days since 1970-01-01 in the proleptic Gregorian calendar
(Hinnant's civil-from-days formula, with floor division). -/
def daysFromCivil (dt : PyDateTime) : Int :=
  let y : Int := if dt.month ≤ 2 then dt.year - 1 else dt.year
  let m : Int := dt.month
  let d : Int := dt.day
  let era : Int := y.fdiv 400
  let yoe : Int := y - era * 400
  let mp : Int := (m + 9) % 12
  let doy : Int := (153 * mp + 2).fdiv 5 + d - 1
  let doe : Int := yoe * 365 + yoe.fdiv 4 - yoe.fdiv 100 + doy
  era * 146097 + doe - 719468

/-- Python `datetime.weekday()`: Monday is 0. -/
def pyWeekday (dt : PyDateTime) : Nat := ((daysFromCivil dt + 3).emod 7).toNat

/-- `relativedelta(months=1)` subtraction with day-of-month clamping. -/
def subOneMonth (dt : PyDateTime) : PyDateTime :=
  let y : Int := if dt.month = 1 then dt.year - 1 else dt.year
  let m : Nat := if dt.month = 1 then 12 else dt.month - 1
  { dt with year := y, month := m, day := min dt.day (daysInMonth y m) }

/-- `relativedelta(months=1)` addition with day-of-month clamping. -/
def addOneMonth (dt : PyDateTime) : PyDateTime :=
  let y : Int := if dt.month = 12 then dt.year + 1 else dt.year
  let m : Nat := if dt.month = 12 then 1 else dt.month + 1
  { dt with year := y, month := m, day := min dt.day (daysInMonth y m) }

/-- `relativedelta(seconds=1)` subtraction (borrowing through the day). -/
def subOneSecond (dt : PyDateTime) : PyDateTime :=
  if dt.second > 0 then { dt with second := dt.second - 1 }
  else if dt.minute > 0 then { dt with minute := dt.minute - 1, second := 59 }
  else if dt.hour > 0 then { dt with hour := dt.hour - 1, minute := 59, second := 59 }
  else { subOneDay dt with hour := 23, minute := 59, second := 59 }

/-- `timedelta(hours=h, minutes=m)` addition, carrying into days. -/
def addTime (dt : PyDateTime) (h m : Nat) : PyDateTime :=
  let totalM := dt.minute + m
  let totalH := dt.hour + h + totalM / 60
  { addDays dt (totalH / 24) with hour := totalH % 24, minute := totalM % 60 }

/-- Chronological key (microseconds since the epoch, valid fields
assumed), used for datetime comparison in the Mongo date filter. -/
def dtKey (dt : PyDateTime) : Int :=
  daysFromCivil dt * 86400000000
    + ((((dt.hour * 60 + dt.minute) * 60 + dt.second) * 1000000 + dt.microsecond : Nat) : Int)

def dtLe (a b : PyDateTime) : Bool := dtKey a ≤ dtKey b

/- ### Temporal expressions (simple-backend.py)

`extract_temporal_expressions` pattern-matches the query against a fixed
pattern table; the resulting expression configs are modelled as an
inductive type (the regex scan itself produces this list, which the
resolver consumes).  `resolve_temporal_expressions` folds over the list,
each recognized kind overwriting the running `{start, end}` range —
last match wins; the `last year` and contextual kinds have no branch and
leave the range unchanged. -/

inductive TExpr where
  | lastWeek | thisWeek | lastMonth | thisMonth | yesterday | today | lastYear
  | monthYear | monthDay | beforeCtx | afterCtx | duringCtx
deriving DecidableEq

/-- The running `date_range = {'start': ..., 'end': ...}` dictionary. -/
structure DateRange where
  start : Option PyDateTime
  stop : Option PyDateTime
deriving DecidableEq

/-- One iteration of the `for expr in temporal_expressions` loop of
`resolve_temporal_expressions`. -/
def resolveStep (now : PyDateTime) (dr : DateRange) (e : TExpr) : DateRange :=
  match e with
  | TExpr.lastWeek =>
      let s1 := subDays now 7
      let s2 := setTime s1 0 0 0 0
      let s3 := subDays s2 (pyWeekday s2)
      { start := some s3,
        stop := some { addDays s3 6 with hour := 23, minute := 59, second := 59 } }
  | TExpr.thisWeek =>
      let s := setTime now 0 0 0 0
      { start := some (subDays s (pyWeekday s)), stop := some now }
  | TExpr.lastMonth =>
      let s := subOneMonth (setTime { now with day := 1 } 0 0 0 0)
      { start := some s, stop := some (subOneSecond (addOneMonth s)) }
  | TExpr.thisMonth =>
      { start := some (setTime { now with day := 1 } 0 0 0 0), stop := some now }
  | TExpr.yesterday =>
      let yd := subOneDay now
      { start := some (setTime yd 0 0 0 0), stop := some (setTime yd 23 59 59 999999) }
  | TExpr.today =>
      { start := some (setTime now 0 0 0 0), stop := some now }
  | _ => dr

/-- `resolve_temporal_expressions(temporal_expressions)` relative to
`now`: fold the recognized expressions over an initially empty range. -/
def resolveTemporalExpressions (exprs : List TExpr) (now : PyDateTime) : DateRange :=
  exprs.foldl (resolveStep now) ⟨none, none⟩

/- ### Temporal parsing in the hybrid engine (hybrid_search.py)

`_parse_temporal_query` checks word-bounded patterns in dict insertion
order (`last week`, `yesterday`, `last month`, `today`, `this week`) and
returns the first matching precomputed range. -/

/-- A regex word character (`\w`): alphanumeric or underscore. -/
def isWordChar (c : Char) : Bool := c.isAlphanum || c = '_'

/-- The character right after a prefix match must not be a word character. -/
def afterBoundaryOk (w s : List Char) : Bool :=
  match (s.drop w.length).head? with
  | none => true
  | some c => !isWordChar c

/-- Scan for `\b<w>\b` given the previous character. -/
def containsWordFrom (w : List Char) (prev : Option Char) : List Char → Bool
  | [] => false
  | c :: rest =>
      ((match prev with | none => true | some p => !isWordChar p)
        && w.isPrefixOf (c :: rest) && afterBoundaryOk w (c :: rest))
      || containsWordFrom w (some c) rest

/-- `re.search(r'\b<w>\b', s)` for a pattern beginning and ending in word
characters. -/
def containsWord (w s : List Char) : Bool := containsWordFrom w none s

/-- `_parse_temporal_query(query)` relative to `now`: the first pattern
matching the lowercased query wins; `yesterday` maps to
`[now - 1 day, now - 1 day + 23h59m]` (same clock time, not calendar-day
boundaries), `today` resets hour/minute/second but not the microsecond. -/
def parseTemporalQuery (query : List Char) (now : PyDateTime) :
    Option (PyDateTime × PyDateTime) :=
  let ql := pyToLower query
  if containsWord "last week".toList ql then some (subDays now 7, now)
  else if containsWord "yesterday".toList ql then
    some (subOneDay now, addTime (subOneDay now) 23 59)
  else if containsWord "last month".toList ql then some (subDays now 30, now)
  else if containsWord "today".toList ql then
    some ({ now with hour := 0, minute := 0, second := 0 }, now)
  else if containsWord "this week".toList ql then some (subDays now (pyWeekday now), now)
  else none

/-- C4 counterexample: at the reference time 2024-01-10T15:00:00 the
hybrid engine's temporal resolution of a query containing "yesterday"
returns [2024-01-09T15:00:00, 2024-01-10T14:59:00], not the full prior
calendar day [2024-01-09T00:00:00, 2024-01-09T23:59:59.999999]. -/
theorem parse_temporal_yesterday_counterexample :
    parseTemporalQuery "what happened yesterday".toList ⟨2024, 1, 10, 15, 0, 0, 0⟩
      = some (⟨2024, 1, 9, 15, 0, 0, 0⟩, ⟨2024, 1, 10, 14, 59, 0, 0⟩) ∧
    some ((⟨2024, 1, 9, 15, 0, 0, 0⟩ : PyDateTime), (⟨2024, 1, 10, 14, 59, 0, 0⟩ : PyDateTime))
      ≠ some ((⟨2024, 1, 9, 0, 0, 0, 0⟩ : PyDateTime), (⟨2024, 1, 9, 23, 59, 59, 999999⟩ : PyDateTime)) := by
  exact ⟨by decide, by decide⟩

/-- C4 (amended): in `resolve_temporal_expressions`, whenever "yesterday"
is the last range-setting temporal expression of the query, the resolved
range is exactly the full prior calendar day — 00:00:00.000000 through
23:59:59.999999 of the day before the reference time; in particular at
2024-01-10T15:00:00 it is [2024-01-09T00:00:00, 2024-01-09T23:59:59.999999].
The hybrid engine's `_parse_temporal_query` does not satisfy this (see the
counterexample). -/
theorem resolve_yesterday_full_prior_day (es : List TExpr) (now : PyDateTime) :
    resolveTemporalExpressions (es ++ [TExpr.yesterday]) now
      = ⟨some (setTime (subOneDay now) 0 0 0 0),
         some (setTime (subOneDay now) 23 59 59 999999)⟩ ∧
    resolveTemporalExpressions [TExpr.yesterday] ⟨2024, 1, 10, 15, 0, 0, 0⟩
      = ⟨some ⟨2024, 1, 9, 0, 0, 0, 0⟩, some ⟨2024, 1, 9, 23, 59, 59, 999999⟩⟩ := by
  constructor
  · unfold resolveTemporalExpressions
    rw [List.foldl_append]
    rfl
  · decide

/- ### Embedding generators

Two implementations exist.  `backend/src/ingestion/embedder.py`
(`EmbeddingGenerator.generate_embedding`) guarantees the configured
dimension (`settings.embedding_dimension = 384` in `config.py`), padding
or truncating; `simple-backend.py`'s module-level `generate_embedding`
returns the raw API vector and `[]` for empty text or on any error.  The
model call / HTTP call outcome is a parameter. -/

/-- `settings.embedding_dimension` from `backend/src/config.py`. -/
def embeddingDimension : Nat := 384

/-- `EmbeddingGenerator.generate_embedding` (backend embedder): zero
vector for blank text or on model failure, otherwise the model vector
padded with zeros or truncated to the configured dimension. -/
def generateEmbedding (text : String) (modelOutcome : Except String (List ℚ)) : List ℚ :=
  if pyStrip text.toList = [] then List.replicate embeddingDimension 0
  else
    match modelOutcome with
    | Except.error _ => List.replicate embeddingDimension 0
    | Except.ok emb =>
        if emb.length = embeddingDimension then emb
        else if emb.length < embeddingDimension then
          emb ++ List.replicate (embeddingDimension - emb.length) 0
        else emb.take embeddingDimension

/-- `generate_embedding` from `simple-backend.py`: `[]` for blank text,
the raw API vector on HTTP 200, `[]` on a non-200 status or exception. -/
def simpleGenerateEmbedding (text : String) (apiOutcome : Except String (List ℚ)) : List ℚ :=
  if pyStrip text.toList = [] then []
  else
    match apiOutcome with
    | Except.ok emb => emb
    | Except.error _ => []

/-- C3 counterexample: the `simple-backend.py` embedding function returns
the empty list — not a vector of the configured dimension — for empty
text, and likewise on an API error. -/
theorem simple_generate_embedding_counterexample :
    simpleGenerateEmbedding "" (Except.ok [1]) = [] ∧
    ([] : List ℚ).length ≠ embeddingDimension ∧
    simpleGenerateEmbedding "hello" (Except.error "timeout") = [] := by
  refine ⟨by decide, by decide, by decide⟩

/-- C3 (amended, holds for the backend `EmbeddingGenerator`): the returned
vector always has exactly the configured dimension; blank text and model
errors yield the all-zero vector, and otherwise the model vector is
truncated if longer and zero-padded if shorter. -/
theorem generate_embedding_fixed_dimension (text : String)
    (outcome : Except String (List ℚ)) :
    (generateEmbedding text outcome).length = embeddingDimension ∧
    (pyStrip text.toList = [] →
      generateEmbedding text outcome = List.replicate embeddingDimension 0) ∧
    (∀ e, outcome = Except.error e →
      generateEmbedding text outcome = List.replicate embeddingDimension 0) ∧
    (∀ emb, outcome = Except.ok emb → pyStrip text.toList ≠ [] →
      generateEmbedding text outcome
        = if embeddingDimension ≤ emb.length then emb.take embeddingDimension
          else emb ++ List.replicate (embeddingDimension - emb.length) 0) := by
  rcases outcome with e | emb
  · refine ⟨?_, ?_, ?_, ?_⟩
    · by_cases hb : pyStrip text.toList = []
      · unfold generateEmbedding
        rw [if_pos hb]
        simp
      · unfold generateEmbedding
        rw [if_neg hb]
        show (List.replicate embeddingDimension (0 : ℚ)).length = embeddingDimension
        simp
    · intro hb
      unfold generateEmbedding
      rw [if_pos hb]
    · intro e' _
      by_cases hb : pyStrip text.toList = []
      · unfold generateEmbedding
        rw [if_pos hb]
      · unfold generateEmbedding
        rw [if_neg hb]
    · intro emb' he'; cases he'
  · refine ⟨?_, ?_, ?_, ?_⟩
    · by_cases hb : pyStrip text.toList = []
      · unfold generateEmbedding
        rw [if_pos hb]
        simp
      · unfold generateEmbedding
        rw [if_neg hb]
        show (if emb.length = embeddingDimension then emb
          else if emb.length < embeddingDimension then
            emb ++ List.replicate (embeddingDimension - emb.length) 0
          else emb.take embeddingDimension).length = embeddingDimension
        by_cases h1 : emb.length = embeddingDimension
        · rw [if_pos h1]; exact h1
        · by_cases h2 : emb.length < embeddingDimension
          · rw [if_neg h1, if_pos h2]
            simp only [List.length_append, List.length_replicate]
            omega
          · rw [if_neg h1, if_neg h2, List.length_take]
            omega
    · intro hb
      unfold generateEmbedding
      rw [if_pos hb]
    · intro e' he'; cases he'
    · intro embv hev hne
      injection hev with hev
      subst hev
      unfold generateEmbedding
      rw [if_neg hne]
      show (if emb.length = embeddingDimension then emb
        else if emb.length < embeddingDimension then
          emb ++ List.replicate (embeddingDimension - emb.length) 0
        else emb.take embeddingDimension)
        = if embeddingDimension ≤ emb.length then emb.take embeddingDimension
          else emb ++ List.replicate (embeddingDimension - emb.length) 0
      by_cases h1 : emb.length = embeddingDimension
      · rw [if_pos h1, if_pos (le_of_eq h1.symm), List.take_of_length_le (le_of_eq h1)]
      · by_cases h2 : emb.length < embeddingDimension
        · rw [if_neg h1, if_pos h2, if_neg (by omega)]
        · rw [if_neg h1, if_neg h2, if_pos (by omega)]

/-- Witness: `generate_embedding_fixed_dimension` at empty text yields the
zero vector of the configured dimension. -/
theorem generate_embedding_fixed_dimension_witness :
    generateEmbedding "" (Except.ok [1]) = List.replicate embeddingDimension 0 :=
  (generate_embedding_fixed_dimension "" (Except.ok [1])).2.1 (by decide)

/- ### Ultra-strict search (`search_documents` in simple-backend.py)

Documents live in Mongo; the store read is a parameter (`Except`), the
cosine similarity (computed with a real square root in Python) is an
oracle parameter `sim`, invoked only under the zero-norm guard, which is
itself expressed exactly on squared norms.  The temporal expressions
extracted from the query by `extract_temporal_expressions` (a regex scan)
are passed in as a list. -/

/-- A stored document of `simple-backend.py` (Mongo collection entry).
`embedding` is absent or present (and possibly the empty list). -/
structure SBDoc where
  id : String
  title : String
  content : String
  source_type : String
  created_at : PyDateTime
  embedding : Option (List ℚ)
deriving DecidableEq

/-- A search-result dict built by `search_documents` (the `created_at`
isoformat serialization is kept as the raw datetime). -/
structure SBResult where
  document_id : String
  chunk_id : String
  title : String
  content : List Char
  relevance_score : ℚ
  source_type : String
  created_at : PyDateTime
  search_type : String
  word_matches : Nat
  coverage_ratio : ℚ
  exact_phrase : Bool
  meaningful_words : Nat
deriving DecidableEq

/-- The ULTRA-STRICT stop-word set of `search_documents`. -/
def sbStopWords : List String :=
  ["the", "and", "for", "are", "but", "not", "you", "all", "can", "had", "her", "was",
   "one", "our", "out", "day", "get", "has", "him", "his", "how", "man", "new", "now",
   "old", "see", "two", "way", "who", "boy", "did", "its", "let", "put", "say", "she",
   "too", "use",
   "this", "that", "with", "have", "will", "from", "they", "been", "said", "each",
   "which", "their", "time", "would", "there", "what", "about", "when", "where",
   "some", "more", "very", "into", "just", "only", "over", "also", "back", "after",
   "first", "well", "year", "work", "such", "make", "even", "most", "take", "than",
   "many", "come", "could", "should", "through", "being", "before", "here", "between",
   "both", "under", "again", "while", "last", "might", "great", "little", "still",
   "public", "read", "know", "never", "may", "another", "same", "any", "these",
   "give", "most", "us", "like", "good", "want", "look", "think", "find", "right",
   "long", "much", "need", "part", "place", "tell", "turn", "call", "move", "live",
   "seem", "feel", "try", "ask", "show", "play", "run", "own", "leave", "point",
   "help", "keep", "start", "become", "open", "walk", "talk", "sit", "stand", "lose",
   "pay", "meet", "include", "continue", "set", "learn", "change", "lead",
   "understand", "watch", "follow", "stop", "create", "speak", "read", "allow",
   "add", "spend", "grow", "offer", "remember", "love", "consider", "appear", "buy",
   "wait", "serve", "die", "send", "expect", "build", "stay", "fall", "cut", "reach",
   "kill", "remain"]

/-- The additional inline exclusion list in the meaningful-word filter. -/
def sbExtraExclusions : List String :=
  ["that", "this", "with", "from", "they", "have", "been", "were", "said", "each",
   "which", "their", "time", "will", "about", "would", "there", "could", "other"]

def sbStopWordsL : List (List Char) := sbStopWords.map String.toList

def sbExtraExclusionsL : List (List Char) := sbExtraExclusions.map String.toList

/-- `query_lower = query.lower().strip()`. -/
def sbQueryLower (query : String) : List Char := pyStrip (pyToLower query.toList)

/-- The ULTRA-STRICT meaningful-word condition: at least 4 characters,
not a stop word, not all digits, all alphabetic, not in the extra
exclusion list. -/
def sbIsMeaningful (w : List Char) : Bool :=
  decide (w.length ≥ 4) && !(sbStopWordsL.contains w) && !(pyIsDigit w)
    && pyIsAlpha w && !(sbExtraExclusionsL.contains w)

/-- `query_words` (length > 2, punctuation stripped) filtered down to
`meaningful_query_words`. -/
def sbMeaningfulWords (queryLower : List Char) : List (List Char) :=
  (((pySplitWs queryLower).filter (fun w => decide (w.length > 2))).map
    (pyStripChars ".,!?;:".toList)).filter sbIsMeaningful

/-- Count of meaningful query words found in the lowercased content or
title (`matched_words`). -/
def sbMatchedWords (words : List (List Char)) (contentLower titleLower : List Char) : Nat :=
  (words.filter (fun w => isSubstr w contentLower || isSubstr w titleLower)).length

/-- `coverage_ratio = matched_words / len(meaningful_query_words)`
(0 when there are no meaningful words). -/
def sbCoverageRatio (words : List (List Char)) (contentLower titleLower : List Char) : ℚ :=
  if words.isEmpty then 0
  else (sbMatchedWords words contentLower titleLower : ℚ) / (words.length : ℚ)

/-- The exact-phrase check: only for queries longer than 6 characters,
substring of the lowercased content or title. -/
def sbExactPhrase (queryLower contentLower titleLower : List Char) : Bool :=
  decide (queryLower.length > 6) && (isSubstr queryLower contentLower
    || isSubstr queryLower titleLower)

/-- Sum of squares of a vector; `magnitude > 0` in the source (a real
square root) is equivalent to `sqNorm > 0`. -/
def sqNorm (v : List ℚ) : ℚ := (v.map (fun a => a * a)).sum

/-- The guarded cosine similarity: 0 unless the query embedding is
nonempty, the document carries a nonempty embedding, and both norms are
positive; otherwise the oracle value. -/
def sbSemanticScore (sim : List ℚ → List ℚ → ℚ) (qe : List ℚ) (doc : SBDoc) : ℚ :=
  match doc.embedding with
  | some emb =>
      if !qe.isEmpty && !emb.isEmpty then
        (if sqNorm qe > 0 && sqNorm emb > 0 then sim qe emb else 0)
      else 0
  | none => 0

/-- The tiered semantic bonus applied on top of high-coverage matches. -/
def sbSemanticBonus (s : ℚ) : ℚ :=
  if s > 85/100 then 3/10 else if s > 75/100 then 2/10
  else if s > 65/100 then 1/10 else 0

/-- Content snippet: first 400 characters plus an ellipsis when longer. -/
def sbTruncContent (content : List Char) : List Char :=
  if content.length > 400 then content.take 400 ++ "...".toList else content

/-- The result dict appended for an included document. -/
def sbMkResult (doc : SBDoc) (score : ℚ) (matched : Nat) (coverage : ℚ)
    (exact : Bool) (nwords : Nat) : SBResult :=
  { document_id := doc.id
    chunk_id := doc.id ++ "-chunk-1"
    title := doc.title
    content := sbTruncContent doc.content.toList
    relevance_score := score
    source_type := doc.source_type
    created_at := doc.created_at
    search_type := "ultra_strict_zero_tolerance"
    word_matches := matched
    coverage_ratio := coverage
    exact_phrase := exact
    meaningful_words := nwords }

/-- The ZERO-TOLERANCE decision for one document: exact phrase match →
score 1.0; coverage ≥ 0.8 → `min(0.7·coverage + semantic bonus, 1.0)`;
otherwise complete rejection. -/
def sbEvalDoc (sim : List ℚ → List ℚ → ℚ) (qe : List ℚ) (queryLower : List Char)
    (words : List (List Char)) (doc : SBDoc) : Option SBResult :=
  if sbExactPhrase queryLower (pyToLower doc.content.toList) (pyToLower doc.title.toList) then
    some (sbMkResult doc 1
      (sbMatchedWords words (pyToLower doc.content.toList) (pyToLower doc.title.toList))
      (sbCoverageRatio words (pyToLower doc.content.toList) (pyToLower doc.title.toList))
      true words.length)
  else if sbCoverageRatio words (pyToLower doc.content.toList)
      (pyToLower doc.title.toList) ≥ 8/10 then
    some (sbMkResult doc
      (min (sbCoverageRatio words (pyToLower doc.content.toList)
          (pyToLower doc.title.toList) * (7/10)
        + sbSemanticBonus (sbSemanticScore sim qe doc)) 1)
      (sbMatchedWords words (pyToLower doc.content.toList) (pyToLower doc.title.toList))
      (sbCoverageRatio words (pyToLower doc.content.toList) (pyToLower doc.title.toList))
      false words.length)
  else none

/-- The Mongo query filter: restrict to the temporal range only when both
bounds were resolved. -/
def sbTemporalFilter (ctx : DateRange) (docs : List SBDoc) : List SBDoc :=
  match ctx.start, ctx.stop with
  | some s, some e => docs.filter (fun d => dtLe s d.created_at && dtLe d.created_at e)
  | _, _ => docs

/-- `temporal_context`: empty unless expressions were extracted. -/
def sbTemporalContext (exprs : List TExpr) (now : PyDateTime) : DateRange :=
  if exprs.isEmpty then ⟨none, none⟩ else resolveTemporalExpressions exprs now

/-- `search_documents(query)` body (the happy path): resolve temporal
context, compute meaningful words (empty → empty result), evaluate every
candidate with the zero-tolerance rule, sort by relevance descending and
return the top 3. -/
def searchDocuments (sim : List ℚ → List ℚ → ℚ) (qe : List ℚ) (exprs : List TExpr)
    (query : String) (docs : List SBDoc) (now : PyDateTime) : List SBResult :=
  if (sbMeaningfulWords (sbQueryLower query)).isEmpty then []
  else
    (((sbTemporalFilter (sbTemporalContext exprs now) docs).filterMap
        (sbEvalDoc sim qe (sbQueryLower query) (sbMeaningfulWords (sbQueryLower query)))).mergeSort
      (fun a b => decide (b.relevance_score ≤ a.relevance_score))).take 3

/-- `search_documents` with its outer `try/except`: any exception while
reading the store is caught, logged, and the function falls through to
Python's implicit `return None` — modelled as `none`. -/
def searchDocumentsSafe (sim : List ℚ → List ℚ → ℚ) (qe : List ℚ) (exprs : List TExpr)
    (query : String) (store : Except String (List SBDoc)) (now : PyDateTime) :
    Option (List SBResult) :=
  match store with
  | Except.ok docs => some (searchDocuments sim qe exprs query docs now)
  | Except.error _ => none

theorem sbEvalDoc_document_id (sim : List ℚ → List ℚ → ℚ) (qe : List ℚ)
    (ql : List Char) (words : List (List Char)) (doc : SBDoc) (r : SBResult)
    (h : sbEvalDoc sim qe ql words doc = some r) : r.document_id = doc.id := by
  unfold sbEvalDoc at h
  split at h
  · injection h with h; subst h; rfl
  · split at h
    · injection h with h; subst h; rfl
    · cases h

theorem sbEvalDoc_rejects (sim : List ℚ → List ℚ → ℚ) (qe : List ℚ)
    (ql : List Char) (words : List (List Char)) (doc : SBDoc)
    (hcov : sbCoverageRatio words (pyToLower doc.content.toList)
      (pyToLower doc.title.toList) < 8/10)
    (hph : sbExactPhrase ql (pyToLower doc.content.toList)
      (pyToLower doc.title.toList) = false) :
    sbEvalDoc sim qe ql words doc = none := by
  unfold sbEvalDoc
  rw [if_neg (by rw [hph]; exact Bool.false_ne_true), if_neg (not_le.2 hcov)]

theorem sbTemporalFilter_subset (ctx : DateRange) (docs : List SBDoc) (d : SBDoc)
    (h : d ∈ sbTemporalFilter ctx docs) : d ∈ docs := by
  unfold sbTemporalFilter at h
  rcases ctx with ⟨s, e⟩
  rcases s with _ | s <;> rcases e with _ | e <;> first
    | exact h
    | exact List.mem_of_mem_filter h

/-- C2: zero-tolerance rejection.  If a document's coverage of the
query's meaningful words is below 0.8 and the full lowercased query does
not occur in its title or content (the exact-phrase test only applying to
queries longer than 6 characters), then `search_documents` never returns
a result for that document (for stores where no other document shares its
id). -/
theorem ultra_strict_rejects_low_coverage (sim : List ℚ → List ℚ → ℚ) (qe : List ℚ)
    (exprs : List TExpr) (query : String) (docs : List SBDoc) (doc : SBDoc)
    (now : PyDateTime)
    (hmem : doc ∈ docs)
    (hid : ∀ d ∈ docs, d.id = doc.id → d = doc)
    (hcov : sbCoverageRatio (sbMeaningfulWords (sbQueryLower query))
      (pyToLower doc.content.toList) (pyToLower doc.title.toList) < 8/10)
    (hph : sbExactPhrase (sbQueryLower query) (pyToLower doc.content.toList)
      (pyToLower doc.title.toList) = false) :
    ∀ r ∈ searchDocuments sim qe exprs query docs now, r.document_id ≠ doc.id := by
  intro r hr heq
  unfold searchDocuments at hr
  by_cases hw : (sbMeaningfulWords (sbQueryLower query)).isEmpty
  · rw [if_pos hw] at hr
    cases hr
  · rw [if_neg hw] at hr
    have hr1 := List.mem_of_mem_take hr
    have hr2 := (List.mem_mergeSort).1 hr1
    obtain ⟨d, hd, he⟩ := List.mem_filterMap.1 hr2
    have hdid : r.document_id = d.id := sbEvalDoc_document_id _ _ _ _ _ _ he
    have hddocs : d ∈ docs := sbTemporalFilter_subset _ _ _ hd
    have hdd : d = doc := hid d hddocs (by rw [← hdid, heq])
    subst hdd
    rw [sbEvalDoc_rejects sim qe _ _ d hcov hph] at he
    cases he

theorem sbCoverageRatio_lt_of_no_match (words : List (List Char)) (cl tl : List Char)
    (h : sbMatchedWords words cl tl = 0) : sbCoverageRatio words cl tl < 8/10 := by
  unfold sbCoverageRatio
  split
  · norm_num
  · rw [h]
    norm_num

/-- Oracle similarity used in closed witness instances. -/
def simZero : List ℚ → List ℚ → ℚ := fun _ _ => 0

/-- A concrete stored document used in closed witness instances. -/
def sbDocW : SBDoc :=
  ⟨"1", "Cooking Recipes", "pasta with tomato sauce", "text", ⟨2024, 1, 1, 0, 0, 0, 0⟩, none⟩

/-- Witness: the rejection theorem applied to an unrelated query against a
one-document store. -/
theorem ultra_strict_rejects_low_coverage_witness :
    ((searchDocuments simZero [] [] "quantum computing" [sbDocW]
        ⟨2024, 1, 1, 0, 0, 0, 0⟩).all
      (fun r => decide (r.document_id ≠ "1"))) = true := by
  have h := ultra_strict_rejects_low_coverage simZero [] [] "quantum computing" [sbDocW]
    sbDocW ⟨2024, 1, 1, 0, 0, 0, 0⟩ (by decide) (by decide)
    (sbCoverageRatio_lt_of_no_match _ _ _ (by decide)) (by decide)
  rw [List.all_eq_true]
  intro r hr
  exact decide_eq_true (h r hr)

/-- C10: when the store read raises, `search_documents` catches the
exception and returns Python's implicit `None` (`none`) — not an empty
list — while a successful read returns the computed result list. -/
theorem search_documents_error_returns_none (sim : List ℚ → List ℚ → ℚ) (qe : List ℚ)
    (exprs : List TExpr) (query : String) (e : String) (now : PyDateTime) :
    searchDocumentsSafe sim qe exprs query (Except.error e) now = none ∧
    searchDocumentsSafe sim qe exprs query (Except.error e) now ≠ some [] ∧
    (∀ docs, searchDocumentsSafe sim qe exprs query (Except.ok docs) now
      = some (searchDocuments sim qe exprs query docs now)) :=
  ⟨rfl, fun h => Option.noConfusion h, fun _ => rfl⟩

/- ### Graded lexical scoring (`submit_query` in api/index.py) -/

/-- Fuel-bounded helper for `countOcc`; the fuel is the haystack length,
ample because every step consumes at least one character. -/
def countOccFuel (needle : List Char) : Nat → List Char → Nat
  | 0, _ => 0
  | fuel + 1, hay =>
      match hay with
      | [] => 0
      | c :: rest =>
          if needle.isPrefixOf (c :: rest) then
            1 + countOccFuel needle fuel ((c :: rest).drop needle.length)
          else countOccFuel needle fuel rest

/-- Python `hay.count(needle)`: non-overlapping occurrences scanning left
to right (`len(hay)+1` for an empty needle, as in Python). -/
def countOcc (needle hay : List Char) : Nat :=
  if needle = [] then hay.length + 1 else countOccFuel needle hay.length hay

/-- A document as consumed by `submit_query` in `api/index.py`. -/
structure ApiDoc where
  id : String
  title : String
  content : String
  source_type : String
deriving DecidableEq

/-- An entry of `relevant_docs` (the scored-document dict). -/
structure ApiScored where
  doc : ApiDoc
  score : ℚ
  matched_words : Nat
  word_coverage : ℚ
  title_matches : Nat
  content_matches : Nat
deriving DecidableEq

/-- The stop-word set of `submit_query` in `api/index.py`. -/
def apiStopWords : List String :=
  ["the", "and", "for", "are", "but", "not", "you", "all", "can", "had", "her", "was",
   "one", "our", "out", "day", "get", "has", "him", "his", "how", "man", "new", "now",
   "old", "see", "two", "way", "who", "this", "that", "with", "have", "will", "from",
   "they", "been", "said", "each", "which", "their", "time", "would", "there", "what",
   "about", "when", "where", "some", "more", "very", "into", "just", "only", "over",
   "also", "back", "after", "first", "well", "year", "work", "such", "make", "even",
   "most", "take", "than", "many", "come", "could", "should", "does"]

def apiStopWordsL : List (List Char) := apiStopWords.map String.toList

/-- `meaningful_words`: lowercase, split, keep words longer than 2
characters, strip punctuation, drop stop words, require length ≥ 3. -/
def apiMeaningfulWords (query : String) : List (List Char) :=
  (((pySplitWs (pyToLower query.toList)).filter (fun w => decide (w.length > 2))).map
    (pyStripChars ".,!?;:".toList)).filter
    (fun w => !(apiStopWordsL.contains w) && decide (w.length ≥ 3))

/-- The per-document counting loop of `submit_query`: accumulates
`(title_matches, content_matches, total_word_count)` over the meaningful
words, adding each word's title and content occurrence counts. -/
def apiCountLoop (words : List (List Char)) (titleLower contentLower : List Char) :
    Nat × Nat × Nat :=
  words.foldl (fun acc w =>
    ((if countOcc w titleLower > 0 then acc.1 + countOcc w titleLower else acc.1),
     (if countOcc w contentLower > 0 then acc.2.1 + countOcc w contentLower else acc.2.1),
     acc.2.2 + countOcc w titleLower + countOcc w contentLower)) (0, 0, 0)

/-- `matched_words`: how many meaningful words occur in the content or
the title. -/
def apiMatchedWords (words : List (List Char)) (contentLower titleLower : List Char) : Nat :=
  (words.filter (fun w => isSubstr w contentLower || isSubstr w titleLower)).length

/-- `word_coverage = matched_words / len(meaningful_words)` (0 without
meaningful words). -/
def apiWordCoverage (words : List (List Char)) (contentLower titleLower : List Char) : ℚ :=
  if words.isEmpty then 0
  else (apiMatchedWords words contentLower titleLower : ℚ) / (words.length : ℚ)

/-- `relevance_score`: 0 unless coverage is positive, else
`coverage·0.7 + title_matches·0.3 + min(total_word_count·0.1, 0.3)`. -/
def apiRelevanceScore (words : List (List Char)) (contentLower titleLower : List Char) : ℚ :=
  if apiWordCoverage words contentLower titleLower > 0 then
    apiWordCoverage words contentLower titleLower * (7/10)
      + ((apiCountLoop words titleLower contentLower).1 : ℚ) * (3/10)
      + min (((apiCountLoop words titleLower contentLower).2.2 : ℚ) * (1/10)) (3/10)
  else 0

/-- One iteration of the scoring loop: the document is appended to
`relevant_docs` exactly when its relevance score exceeds 0.3. -/
def apiScoreDoc (query : String) (doc : ApiDoc) : Option ApiScored :=
  if apiRelevanceScore (apiMeaningfulWords query) (pyToLower doc.content.toList)
      (pyToLower doc.title.toList) > 3/10 then
    some ⟨doc,
      apiRelevanceScore (apiMeaningfulWords query) (pyToLower doc.content.toList)
        (pyToLower doc.title.toList),
      apiMatchedWords (apiMeaningfulWords query) (pyToLower doc.content.toList)
        (pyToLower doc.title.toList),
      apiWordCoverage (apiMeaningfulWords query) (pyToLower doc.content.toList)
        (pyToLower doc.title.toList),
      (apiCountLoop (apiMeaningfulWords query) (pyToLower doc.title.toList)
        (pyToLower doc.content.toList)).1,
      (apiCountLoop (apiMeaningfulWords query) (pyToLower doc.title.toList)
        (pyToLower doc.content.toList)).2.1⟩
  else none

/-- `relevant_docs` after the scoring loop. -/
def apiRelevantDocs (query : String) (documents : List ApiDoc) : List ApiScored :=
  documents.filterMap (apiScoreDoc query)

/-- `relevant_docs` after the descending stable sort by score. -/
def apiSortedRelevantDocs (query : String) (documents : List ApiDoc) : List ApiScored :=
  (apiRelevantDocs query documents).mergeSort (fun a b => decide (b.score ≤ a.score))

/-- Spec-level restatement: total occurrence count of the words in a
string, as a sum. -/
def occSum (words : List (List Char)) (s : List Char) : Nat :=
  (words.map (fun w => countOcc w s)).sum

theorem apiCountLoop_acc (words : List (List Char)) (tl cl : List Char)
    (a b c : Nat) :
    words.foldl (fun acc w =>
      ((if countOcc w tl > 0 then acc.1 + countOcc w tl else acc.1),
       (if countOcc w cl > 0 then acc.2.1 + countOcc w cl else acc.2.1),
       acc.2.2 + countOcc w tl + countOcc w cl)) (a, b, c)
    = (a + occSum words tl, b + occSum words cl, c + occSum words tl + occSum words cl) := by
  induction words generalizing a b c with
  | nil => simp [occSum]
  | cons w rest ih =>
      simp only [List.foldl_cons, ih, occSum, List.map_cons, List.sum_cons]
      have h1 : (if countOcc w tl > 0 then a + countOcc w tl else a) = a + countOcc w tl := by
        split <;> omega
      have h2 : (if countOcc w cl > 0 then b + countOcc w cl else b) = b + countOcc w cl := by
        split <;> omega
      rw [h1, h2]
      refine congrArg₂ Prod.mk (by omega) (congrArg₂ Prod.mk (by omega) (by omega))

theorem apiCountLoop_eq (words : List (List Char)) (tl cl : List Char) :
    apiCountLoop words tl cl
      = (occSum words tl, occSum words cl, occSum words tl + occSum words cl) := by
  unfold apiCountLoop
  rw [apiCountLoop_acc]
  simp

/-- C6: in graded mode, a document with positive coverage scores exactly
`0.7·coverage + 0.3·(title occurrence total) + min(0.1·(total occurrence
count over title and content), 0.3)`, and a document enters the relevant
set (before and after sorting) precisely when this score exceeds the 0.3
relevance floor. -/
theorem graded_mode_score_and_floor (query : String) (documents : List ApiDoc)
    (doc : ApiDoc) :
    (apiWordCoverage (apiMeaningfulWords query) (pyToLower doc.content.toList)
        (pyToLower doc.title.toList) > 0 →
      apiRelevanceScore (apiMeaningfulWords query) (pyToLower doc.content.toList)
          (pyToLower doc.title.toList)
        = (7/10) * apiWordCoverage (apiMeaningfulWords query)
            (pyToLower doc.content.toList) (pyToLower doc.title.toList)
          + (3/10) * (occSum (apiMeaningfulWords query) (pyToLower doc.title.toList) : ℚ)
          + min ((1/10) * ((occSum (apiMeaningfulWords query) (pyToLower doc.title.toList)
              + occSum (apiMeaningfulWords query) (pyToLower doc.content.toList) : Nat) : ℚ))
              (3/10)) ∧
    (doc ∈ documents →
      ((∃ e ∈ apiSortedRelevantDocs query documents, e.doc = doc) ↔
        apiRelevanceScore (apiMeaningfulWords query) (pyToLower doc.content.toList)
          (pyToLower doc.title.toList) > 3/10)) := by
  constructor
  · intro hcov
    unfold apiRelevanceScore
    rw [if_pos hcov, apiCountLoop_eq]
    rw [mul_comm _ ((7:ℚ)/10), mul_comm _ ((3:ℚ)/10), mul_comm _ ((1:ℚ)/10)]
  · intro hmem
    constructor
    · rintro ⟨e, he, hedoc⟩
      have he1 : e ∈ apiRelevantDocs query documents := (List.mem_mergeSort).1 he
      obtain ⟨d, _, hd⟩ := List.mem_filterMap.1 he1
      unfold apiScoreDoc at hd
      split at hd
      · injection hd with hd
        subst hd
        simp only at hedoc
        subst hedoc
        assumption
      · cases hd
    · intro hscore
      refine ⟨⟨doc,
        apiRelevanceScore (apiMeaningfulWords query) (pyToLower doc.content.toList)
          (pyToLower doc.title.toList),
        apiMatchedWords (apiMeaningfulWords query) (pyToLower doc.content.toList)
          (pyToLower doc.title.toList),
        apiWordCoverage (apiMeaningfulWords query) (pyToLower doc.content.toList)
          (pyToLower doc.title.toList),
        (apiCountLoop (apiMeaningfulWords query) (pyToLower doc.title.toList)
          (pyToLower doc.content.toList)).1,
        (apiCountLoop (apiMeaningfulWords query) (pyToLower doc.title.toList)
          (pyToLower doc.content.toList)).2.1⟩, ?_, rfl⟩
      refine (List.mem_mergeSort).2 ?_
      refine List.mem_filterMap.2 ⟨doc, hmem, ?_⟩
      unfold apiScoreDoc
      rw [if_pos hscore]

/-- A concrete document for the graded-mode witness. -/
def apiDocW : ApiDoc := ⟨"7", "Machine Learning Fundamentals", "machine learning intro", "pdf"⟩

/-- Witness: `graded_mode_score_and_floor` applied at a concrete query and
one-document store whose score clears the floor. -/
theorem graded_mode_score_and_floor_witness :
    ∃ e ∈ apiSortedRelevantDocs "machine learning" [apiDocW], e.doc = apiDocW := by
  have hiff := (graded_mode_score_and_floor "machine learning" [apiDocW] apiDocW).2
    (List.mem_singleton.2 rfl)
  have hm : apiMatchedWords (apiMeaningfulWords "machine learning")
      (pyToLower apiDocW.content.toList) (pyToLower apiDocW.title.toList) = 2 := by decide
  have hlen : (apiMeaningfulWords "machine learning").length = 2 := by decide
  have hne : (apiMeaningfulWords "machine learning").isEmpty = false := by decide
  have hcov : apiWordCoverage (apiMeaningfulWords "machine learning")
      (pyToLower apiDocW.content.toList) (pyToLower apiDocW.title.toList) = 1 := by
    unfold apiWordCoverage
    rw [if_neg (by rw [hne]; exact Bool.false_ne_true), hm, hlen]
    norm_num
  have hocct : occSum (apiMeaningfulWords "machine learning")
      (pyToLower apiDocW.title.toList) = 2 := by decide
  have hoccc : occSum (apiMeaningfulWords "machine learning")
      (pyToLower apiDocW.content.toList) = 2 := by decide
  have hform := (graded_mode_score_and_floor "machine learning" [apiDocW] apiDocW).1
    (by rw [hcov]; norm_num)
  rw [hcov, hocct, hoccc] at hform
  refine hiff.2 ?_
  rw [hform]
  rw [min_def]
  norm_num

/- ### Intelligent chunker (backend/src/ingestion/chunker.py)

The token counter is a parameter `tc` (the source uses tiktoken when
available and otherwise `len(text.split()) * 1.3`; decisions compare the
count against the configured sizes).  All recursions are structural or
fuel-bounded by the input length so concrete runs reduce. -/

/-- The chunker configuration (defaults 500 / 100 / 50). -/
structure ChunkConfig where
  chunk_size : Nat
  chunk_overlap : Nat
  min_chunk_size : Nat
deriving DecidableEq

/-- The tokenizer fallback `len(text.split()) * 1.3`. -/
def fallbackCount (s : List Char) : ℚ := ((pySplitWs s).length : ℚ) * (13/10)

/-- A chunk dict produced by `_create_chunk` (metadata flattened:
`chunk_index` and `chunk_length`). -/
structure ChunkRec where
  content : List Char
  token_count : Int
  chunk_index : Nat
  chunk_length : Nat
deriving DecidableEq

/-- `_create_chunk(content, metadata, index)`: strips the content, stores
`int(count)` and the pre-strip length. -/
def createChunk (tc : List Char → ℚ) (content : List Char) (index : Nat) : ChunkRec :=
  { content := pyStrip content
    token_count := (tc content).floor
    chunk_index := index
    chunk_length := content.length }

def isSentEnd (c : Char) : Bool := c = '.' || c = '!' || c = '?'

/-- Fuel-bounded scanner for `re.split(r'[.!?]+\s+', text)`: a maximal
run of sentence punctuation followed by whitespace is a separator (both
dropped); the fuel (the text length) is never exhausted. -/
def splitSentencesAux : Nat → List Char → List Char → List (List Char)
  | 0, s, acc => [acc.reverse ++ s]
  | fuel + 1, s, acc =>
      match s with
      | [] => [acc.reverse]
      | c :: rest =>
          if isSentEnd c then
            match (c :: rest).dropWhile isSentEnd with
            | a :: after =>
                if pyIsSpaceChar a then
                  acc.reverse ::
                    splitSentencesAux fuel ((a :: after).dropWhile pyIsSpaceChar) []
                else splitSentencesAux fuel rest (c :: acc)
            | [] => splitSentencesAux fuel rest (c :: acc)
          else splitSentencesAux fuel rest (c :: acc)

/-- `_split_sentences`: regex split, then strip each piece and drop the
empty ones.  The sentence terminators themselves are consumed by the
split. -/
def splitSentences (text : List Char) : List (List Char) :=
  ((splitSentencesAux text.length text []).map pyStrip).filter (fun s => !s.isEmpty)

/-- The backward walk of `_get_overlap_sentences` over the reversed
sentence list, prepending while the budget is not exceeded and stopping
at the first overflow. -/
def getOverlapAux (tc : List Char → ℚ) (overlap : Nat) :
    List (List Char) → ℚ → List (List Char) → List (List Char)
  | [], _, acc => acc
  | s :: rest, toks, acc =>
      if toks + tc s ≤ (overlap : ℚ) then getOverlapAux tc overlap rest (toks + tc s) (s :: acc)
      else acc

/-- `_get_overlap_sentences(sentences)`: whole sentences from the end
whose accumulated size stays within `chunk_overlap`. -/
def getOverlapSentences (tc : List Char → ℚ) (overlap : Nat)
    (sentences : List (List Char)) : List (List Char) :=
  getOverlapAux tc overlap sentences.reverse 0 []

/-- Python `' '.join`. -/
def joinSp : List (List Char) → List Char
  | [] => []
  | [s] => s
  | s :: rest => s ++ ' ' :: joinSp rest

/-- The accumulation loop of `_chunk_by_sentences`: when the next
sentence would overflow a nonempty chunk, emit it (index = count so far)
and reseed from the overlap window; otherwise append the sentence. -/
def chunkLoop (tc : List Char → ℚ) (cfg : ChunkConfig) :
    List (List Char) → List ChunkRec → List (List Char) → ℚ →
      List ChunkRec × List (List Char) × ℚ
  | [], chunks, cur, toks => (chunks, cur, toks)
  | s :: rest, chunks, cur, toks =>
      if toks + tc s > (cfg.chunk_size : ℚ) ∧ cur ≠ [] then
        chunkLoop tc cfg rest (chunks ++ [createChunk tc (joinSp cur) chunks.length])
          (getOverlapSentences tc cfg.chunk_overlap cur ++ [s])
          (((getOverlapSentences tc cfg.chunk_overlap cur ++ [s]).map tc).sum)
      else chunkLoop tc cfg rest chunks (cur ++ [s]) (toks + tc s)

/-- `_chunk_by_sentences`: run the loop, then emit the trailing chunk
only when it meets `min_chunk_size` (otherwise it is silently dropped). -/
def chunkBySentences (tc : List Char → ℚ) (cfg : ChunkConfig) (content : List Char) :
    List ChunkRec :=
  match splitSentences content with
  | [] => []
  | s :: rest =>
      match chunkLoop tc cfg (s :: rest) [] [] 0 with
      | (chunks, cur, _) =>
          if cur ≠ [] then
            if tc (joinSp cur) ≥ (cfg.min_chunk_size : ℚ) then
              chunks ++ [createChunk tc (joinSp cur) chunks.length]
            else chunks
          else chunks

/-- Python `content.split('\n')` (keeps empty pieces). -/
def splitNl : List Char → List (List Char)
  | [] => [[]]
  | c :: rest =>
      if c = '\n' then [] :: splitNl rest
      else
        match splitNl rest with
        | h :: t => (c :: h) :: t
        | [] => [[c]]

/-- Python `sep.join` with a one-character separator. -/
def joinChar (sep : Char) : List (List Char) → List Char
  | [] => []
  | [s] => s
  | s :: rest => s ++ sep :: joinChar sep rest

/-- Markdown header `^#{1,6}\s+.+$` against the stripped line. -/
def matchHashHeader (l : List Char) : Bool :=
  decide (1 ≤ (l.takeWhile (fun c => c = '#')).length)
    && decide ((l.takeWhile (fun c => c = '#')).length ≤ 6)
    && (match l.dropWhile (fun c => c = '#') with
        | c :: _ => pyIsSpaceChar c
        | [] => false)
    && !((l.dropWhile (fun c => c = '#')).dropWhile pyIsSpaceChar).isEmpty

/-- Numbered section `^\d+\.\s+.+$`. -/
def matchNumHeader (l : List Char) : Bool :=
  decide (1 ≤ (l.takeWhile Char.isDigit).length)
    && (match l.dropWhile Char.isDigit with
        | '.' :: r2 =>
            (match r2 with
             | c :: _ => pyIsSpaceChar c
             | [] => false) && !(r2.dropWhile pyIsSpaceChar).isEmpty
        | _ => false)

def isUpperAZ (c : Char) : Bool := decide ('A' ≤ c) && decide (c ≤ 'Z')

/-- ALL-CAPS header `^[A-Z][A-Z\s]+$`. -/
def matchCapsHeader (l : List Char) : Bool :=
  match l with
  | c :: rest => isUpperAZ c && !rest.isEmpty && rest.all (fun d => isUpperAZ d || pyIsSpaceChar d)
  | [] => false

/-- Colon-terminated section title `^\s*[A-Z][^.!?]*:$`. -/
def matchColonHeader (l : List Char) : Bool :=
  match l.dropWhile pyIsSpaceChar with
  | c :: r2 =>
      isUpperAZ c && !r2.isEmpty && decide (r2.getLast? = some ':')
        && r2.dropLast.all (fun d => !isSentEnd d)
  | [] => false

/-- `is_header`: any of the four patterns matches the stripped line. -/
def isHeaderLine (line : List Char) : Bool :=
  matchHashHeader (pyStrip line) || matchNumHeader (pyStrip line)
    || matchCapsHeader (pyStrip line) || matchColonHeader (pyStrip line)

/-- The section-building loop of `_chunk_document`: a header line closes
the current section (when nonempty) and starts a new one. -/
def sectionsLoop : List (List Char) → List (List Char) → List (List Char) → List (List Char)
  | [], sections, cur => if cur ≠ [] then sections ++ [joinChar '\n' cur] else sections
  | line :: rest, sections, cur =>
      if isHeaderLine line ∧ cur ≠ [] then
        sectionsLoop rest (sections ++ [joinChar '\n' cur]) [line]
      else sectionsLoop rest sections (cur ++ [line])

/-- `_chunk_document`: split into header-delimited sections, then chunk
each nonblank section independently by sentences, concatenating the
per-section chunk lists (whose `chunk_index` restarts at 0). -/
def chunkDocument (tc : List Char → ℚ) (cfg : ChunkConfig) (content : List Char) :
    List ChunkRec :=
  (sectionsLoop (splitNl content) [] []).foldl
    (fun chunks sec =>
      if pyStrip sec ≠ [] then chunks ++ chunkBySentences tc cfg sec else chunks) []

/-- Fuel-bounded `content.split(sep)` for a nonempty separator. -/
def splitOnSubFuel (sep : List Char) : Nat → List Char → List Char → List (List Char)
  | 0, s, acc => [acc.reverse ++ s]
  | fuel + 1, s, acc =>
      match s with
      | [] => [acc.reverse]
      | c :: rest =>
          if sep.isPrefixOf (c :: rest) then
            acc.reverse :: splitOnSubFuel sep fuel ((c :: rest).drop sep.length) []
          else splitOnSubFuel sep fuel rest (c :: acc)

def splitOnSub (sep s : List Char) : List (List Char) := splitOnSubFuel sep s.length s []

/-- The paragraph-accumulation loop of `_chunk_web_content`. -/
def chunkWebLoop (tc : List Char → ℚ) (cfg : ChunkConfig) :
    List (List Char) → List ChunkRec → List Char → List ChunkRec × List Char
  | [], chunks, cur => (chunks, cur)
  | p :: rest, chunks, cur =>
      if tc (if cur.isEmpty then p else cur ++ '\n' :: '\n' :: p) ≤ (cfg.chunk_size : ℚ) then
        chunkWebLoop tc cfg rest chunks (if cur.isEmpty then p else cur ++ '\n' :: '\n' :: p)
      else
        if tc p > (cfg.chunk_size : ℚ) then
          chunkWebLoop tc cfg rest
            ((if cur ≠ [] then chunks ++ [createChunk tc cur chunks.length] else chunks)
              ++ chunkBySentences tc cfg p) []
        else
          chunkWebLoop tc cfg rest
            (if cur ≠ [] then chunks ++ [createChunk tc cur chunks.length] else chunks) p

/-- `_chunk_web_content`: greedy paragraph packing; an oversized lone
paragraph falls back to sentence chunking. -/
def chunkWebContent (tc : List Char → ℚ) (cfg : ChunkConfig) (content : List Char) :
    List ChunkRec :=
  match chunkWebLoop tc cfg
      (((splitOnSub ('\n' :: ['\n']) content).map pyStrip).filter (fun p => !p.isEmpty))
      [] [] with
  | (chunks, cur) =>
      if cur ≠ [] then chunks ++ [createChunk tc cur chunks.length] else chunks

/-- Match one alternative of the speaker/timestamp pattern
`(Speaker \d+:|[A-Z][a-z]+ \d*:|\[\d{2}:\d{2}:\d{2}\])` at the head of
the string, returning the match length. -/
def matchSpeakerAt (s : List Char) : Option Nat :=
  let tryA : Option Nat :=
    if ("Speaker ".toList).isPrefixOf s then
      let rest := s.drop 8
      let digits := rest.takeWhile Char.isDigit
      if 1 ≤ digits.length ∧ (rest.drop digits.length).head? = some ':' then
        some (8 + digits.length + 1)
      else none
    else none
  let tryB : Option Nat :=
    match s with
    | c :: rest =>
        if isUpperAZ c then
          let lowers := rest.takeWhile (fun d => decide ('a' ≤ d) && decide (d ≤ 'z'))
          if 1 ≤ lowers.length then
            match rest.drop lowers.length with
            | ' ' :: r2 =>
                let digits := r2.takeWhile Char.isDigit
                if (r2.drop digits.length).head? = some ':' then
                  some (1 + lowers.length + 1 + digits.length + 1)
                else none
            | _ => none
          else none
        else none
    | [] => none
  let tryC : Option Nat :=
    match s with
    | '[' :: d1 :: d2 :: ':' :: d3 :: d4 :: ':' :: d5 :: d6 :: ']' :: _ =>
        if d1.isDigit && d2.isDigit && d3.isDigit && d4.isDigit && d5.isDigit && d6.isDigit then
          some 10
        else none
    | _ => none
  (tryA.orElse (fun _ => tryB)).orElse (fun _ => tryC)

/-- `re.search(speaker_pattern, content)`: some position matches. -/
def containsSpeaker : List Char → Bool
  | [] => false
  | c :: rest => (matchSpeakerAt (c :: rest)).isSome || containsSpeaker rest

/-- Fuel-bounded `re.split(speaker_pattern, content)` with the capture
group kept: pieces and separators alternate in the output. -/
def splitSpeakerFuel : Nat → List Char → List Char → List (List Char)
  | 0, s, acc => [acc.reverse ++ s]
  | fuel + 1, s, acc =>
      match s with
      | [] => [acc.reverse]
      | c :: rest =>
          match matchSpeakerAt (c :: rest) with
          | some n =>
              acc.reverse :: (c :: rest).take n ::
                splitSpeakerFuel fuel ((c :: rest).drop n) []
          | none => splitSpeakerFuel fuel rest (c :: acc)

def splitSpeaker (s : List Char) : List (List Char) := splitSpeakerFuel s.length s []

/-- The segment loop of `_chunk_audio_transcript`: markers flush a
sufficiently large accumulated chunk; content flushes on reaching
`chunk_size`. -/
def chunkAudioLoop (tc : List Char → ℚ) (cfg : ChunkConfig) :
    List (List Char) → List ChunkRec → List Char → List ChunkRec × List Char
  | [], chunks, cur => (chunks, cur)
  | seg :: rest, chunks, cur =>
      if (pyStrip seg).isEmpty then chunkAudioLoop tc cfg rest chunks cur
      else if (matchSpeakerAt seg).isSome then
        if cur ≠ [] ∧ tc cur ≥ (cfg.min_chunk_size : ℚ) then
          chunkAudioLoop tc cfg rest (chunks ++ [createChunk tc cur chunks.length]) seg
        else chunkAudioLoop tc cfg rest chunks (cur ++ seg)
      else
        if tc (cur ++ seg) ≥ (cfg.chunk_size : ℚ) then
          chunkAudioLoop tc cfg rest (chunks ++ [createChunk tc (cur ++ seg) chunks.length]) []
        else chunkAudioLoop tc cfg rest chunks (cur ++ seg)

/-- `_chunk_audio_transcript`: marker-based splitting when the pattern
occurs, else sentence-based chunking. -/
def chunkAudioTranscript (tc : List Char → ℚ) (cfg : ChunkConfig) (content : List Char) :
    List ChunkRec :=
  if containsSpeaker content then
    match chunkAudioLoop tc cfg (splitSpeaker content) [] [] with
    | (chunks, cur) =>
        if pyStrip cur ≠ [] then chunks ++ [createChunk tc cur chunks.length] else chunks
  else chunkBySentences tc cfg content

/-- `chunk_content(content, source_type, metadata)`: dispatch on the
source type; blank content yields no chunks. -/
def chunkContent (tc : List Char → ℚ) (cfg : ChunkConfig) (content : List Char)
    (source_type : String) : List ChunkRec :=
  if pyStrip content = [] then []
  else if source_type = "audio" then chunkAudioTranscript tc cfg content
  else if source_type = "pdf" ∨ source_type = "text" then chunkDocument tc cfg content
  else if source_type = "web" then chunkWebContent tc cfg content
  else if source_type = "image" then chunkBySentences tc cfg content
  else chunkBySentences tc cfg content

/- ### Chunk reconstruction analysis (claims about `_chunk_by_sentences`) -/

/-- Whitespace normalization of a string: collapse whitespace runs and
trim (spec-level, for the reconstruction claim). -/
def normalizeWs (s : List Char) : List Char := joinSp (pySplitWs s)

/-- Last element of a window list, with a default (spec-level helper). -/
def lastD : List (List (List Char)) → List (List Char) → List (List Char)
  | [], d => d
  | w :: rest, _ => lastD rest w

/-- Every window after the first begins with the overlap computed from
its predecessor (spec-level invariant of the chunking loop). -/
def winChain (tc : List Char → ℚ) (ov : Nat) : List (List (List Char)) → Prop
  | [] => True
  | [_] => True
  | w :: w' :: rest =>
      (getOverlapSentences tc ov w) <+: w' ∧ winChain tc ov (w' :: rest)

/-- Remove from each window the sentences contributed by the designed
overlap with its predecessor, and concatenate (spec-level). -/
def stripOverlapsAux (tc : List Char → ℚ) (ov : Nat) :
    List (List Char) → List (List (List Char)) → List (List Char)
  | _, [] => []
  | prev, w :: ws =>
      w.drop (getOverlapSentences tc ov prev).length ++ stripOverlapsAux tc ov w ws

/-- The sentence sequence reconstructed from the windows, counting the
overlap sentences only once. -/
def stripOverlaps (tc : List Char → ℚ) (ov : Nat) :
    List (List (List Char)) → List (List Char)
  | [] => []
  | w :: ws => w ++ stripOverlapsAux tc ov w ws

/-- The chunk records produced from sentence windows starting at a given
index (spec-level view of the emitted chunks). -/
def chunksOfWindows (tc : List Char → ℚ) : List (List (List Char)) → Nat → List ChunkRec
  | [], _ => []
  | w :: ws, i => createChunk tc (joinSp w) i :: chunksOfWindows tc ws (i + 1)

theorem lastD_append (ws : List (List (List Char))) (w d : List (List Char)) :
    lastD (ws ++ [w]) d = w := by
  induction ws generalizing d with
  | nil => rfl
  | cons w1 rest ih => exact ih w1

theorem chunksOfWindows_length (tc : List Char → ℚ) (ws : List (List (List Char))) (i : Nat) :
    (chunksOfWindows tc ws i).length = ws.length := by
  induction ws generalizing i with
  | nil => rfl
  | cons w rest ih => simp [chunksOfWindows, ih]

theorem chunksOfWindows_snoc (tc : List Char → ℚ) (ws : List (List (List Char)))
    (w : List (List Char)) (i : Nat) :
    chunksOfWindows tc (ws ++ [w]) i
      = chunksOfWindows tc ws i ++ [createChunk tc (joinSp w) (i + ws.length)] := by
  induction ws generalizing i with
  | nil => simp [chunksOfWindows]
  | cons w1 rest ih =>
      have e1 : chunksOfWindows tc ((w1 :: rest) ++ [w]) i
          = createChunk tc (joinSp w1) i :: chunksOfWindows tc (rest ++ [w]) (i + 1) := rfl
      have e2 : chunksOfWindows tc (w1 :: rest) i
          = createChunk tc (joinSp w1) i :: chunksOfWindows tc rest (i + 1) := rfl
      rw [e1, e2, ih, List.length_cons,
        show i + 1 + rest.length = i + (rest.length + 1) from by omega]
      rfl

theorem winChain_snoc (tc : List Char → ℚ) (ov : Nat) (ws : List (List (List Char)))
    (w : List (List Char)) :
    winChain tc ov (ws ++ [w]) ↔
      winChain tc ov ws ∧ (ws = [] ∨ (getOverlapSentences tc ov (lastD ws [])) <+: w) := by
  induction ws with
  | nil => simp [winChain, lastD]
  | cons w1 rest ih =>
      cases rest with
      | nil => simp [winChain, lastD]
      | cons w2 rest2 =>
          constructor
          · intro h
            have h1 : (getOverlapSentences tc ov w1) <+: w2 := h.1
            obtain ⟨hc, hlast⟩ := ih.mp h.2
            refine ⟨⟨h1, hc⟩, ?_⟩
            rcases hlast with h' | h'
            · cases h'
            · exact Or.inr h'
          · rintro ⟨⟨h1, hc⟩, hlast⟩
            refine ⟨h1, ih.mpr ⟨hc, ?_⟩⟩
            rcases hlast with h' | h'
            · cases h'
            · exact Or.inr h'

theorem stripOverlapsAux_snoc (tc : List Char → ℚ) (ov : Nat) (p : List (List Char))
    (ws : List (List (List Char))) (w : List (List Char)) :
    stripOverlapsAux tc ov p (ws ++ [w])
      = stripOverlapsAux tc ov p ws
        ++ w.drop (getOverlapSentences tc ov (lastD ws p)).length := by
  induction ws generalizing p with
  | nil => simp [stripOverlapsAux, lastD]
  | cons w1 rest ih =>
      have e1 : stripOverlapsAux tc ov p ((w1 :: rest) ++ [w])
          = w1.drop (getOverlapSentences tc ov p).length
            ++ stripOverlapsAux tc ov w1 (rest ++ [w]) := rfl
      have e2 : stripOverlapsAux tc ov p (w1 :: rest)
          = w1.drop (getOverlapSentences tc ov p).length
            ++ stripOverlapsAux tc ov w1 rest := rfl
      rw [e1, e2, ih w1, ← List.append_assoc]
      rfl

theorem stripOverlaps_snoc (tc : List Char → ℚ) (ov : Nat) (ws : List (List (List Char)))
    (w : List (List Char)) (h : ws ≠ []) :
    stripOverlaps tc ov (ws ++ [w])
      = stripOverlaps tc ov ws
        ++ w.drop (getOverlapSentences tc ov (lastD ws [])).length := by
  cases ws with
  | nil => cases h rfl
  | cons w1 rest =>
      have e1 : stripOverlaps tc ov ((w1 :: rest) ++ [w])
          = w1 ++ stripOverlapsAux tc ov w1 (rest ++ [w]) := rfl
      have e2 : stripOverlaps tc ov (w1 :: rest)
          = w1 ++ stripOverlapsAux tc ov w1 rest := rfl
      rw [e1, e2, stripOverlapsAux_snoc, ← List.append_assoc]
      rfl

theorem chunkLoop_windows (tc : List Char → ℚ) (cfg : ChunkConfig) :
    ∀ (ss : List (List Char)) (ws : List (List (List Char))) (cur : List (List Char))
      (P : List (List Char)),
    stripOverlaps tc cfg.chunk_overlap (ws ++ [cur]) = P →
    winChain tc cfg.chunk_overlap (ws ++ [cur]) →
    ∃ ws' cur',
      chunkLoop tc cfg ss (chunksOfWindows tc ws 0) cur ((cur.map tc).sum)
        = (chunksOfWindows tc ws' 0, cur', ((cur'.map tc).sum)) ∧
      stripOverlaps tc cfg.chunk_overlap (ws' ++ [cur']) = P ++ ss ∧
      winChain tc cfg.chunk_overlap (ws' ++ [cur']) := by
  intro ss
  induction ss with
  | nil =>
      intro ws cur P hP hch
      exact ⟨ws, cur, rfl, by simpa using hP, hch⟩
  | cons s rest ih =>
      intro ws cur P hP hch
      have hunfold : chunkLoop tc cfg (s :: rest) (chunksOfWindows tc ws 0) cur
            ((cur.map tc).sum)
          = if ((cur.map tc).sum + tc s > (cfg.chunk_size : ℚ) ∧ cur ≠ []) then
              chunkLoop tc cfg rest
                ((chunksOfWindows tc ws 0)
                  ++ [createChunk tc (joinSp cur) (chunksOfWindows tc ws 0).length])
                (getOverlapSentences tc cfg.chunk_overlap cur ++ [s])
                (((getOverlapSentences tc cfg.chunk_overlap cur ++ [s]).map tc).sum)
            else
              chunkLoop tc cfg rest (chunksOfWindows tc ws 0) (cur ++ [s])
                ((cur.map tc).sum + tc s) := rfl
      by_cases hcond : ((cur.map tc).sum + tc s > (cfg.chunk_size : ℚ) ∧ cur ≠ [])
      · have hchunks : chunksOfWindows tc ws 0
            ++ [createChunk tc (joinSp cur) (chunksOfWindows tc ws 0).length]
            = chunksOfWindows tc (ws ++ [cur]) 0 := by
          rw [chunksOfWindows_length, chunksOfWindows_snoc]
          simp
        have hP' : stripOverlaps tc cfg.chunk_overlap
            ((ws ++ [cur]) ++ [getOverlapSentences tc cfg.chunk_overlap cur ++ [s]])
            = P ++ [s] := by
          rw [stripOverlaps_snoc _ _ _ _ (by simp), lastD_append, List.drop_left, hP]
        have hch' : winChain tc cfg.chunk_overlap
            ((ws ++ [cur]) ++ [getOverlapSentences tc cfg.chunk_overlap cur ++ [s]]) := by
          rw [winChain_snoc]
          refine ⟨hch, Or.inr ?_⟩
          rw [lastD_append]
          exact List.prefix_append _ _
        obtain ⟨ws', cur', h1, h2, h3⟩ := ih (ws ++ [cur])
          (getOverlapSentences tc cfg.chunk_overlap cur ++ [s]) (P ++ [s]) hP' hch'
        refine ⟨ws', cur', ?_, ?_, h3⟩
        · rw [hunfold, if_pos hcond, hchunks]
          exact h1
        · refine h2.trans ?_
          rw [List.append_assoc]
          rfl
      · have hsum : (cur.map tc).sum + tc s = (((cur ++ [s]).map tc).sum) := by
          simp
        have hP' : stripOverlaps tc cfg.chunk_overlap (ws ++ [cur ++ [s]]) = P ++ [s] := by
          rcases eq_or_ne ws [] with hws | hws
          · subst hws
            simp only [List.nil_append] at hP ⊢
            have e1 : stripOverlaps tc cfg.chunk_overlap [cur ++ [s]] = cur ++ [s] := by
              show (cur ++ [s]) ++ stripOverlapsAux tc cfg.chunk_overlap (cur ++ [s]) [] = _
              simp [stripOverlapsAux]
            have e2 : stripOverlaps tc cfg.chunk_overlap [cur] = cur := by
              show cur ++ stripOverlapsAux tc cfg.chunk_overlap cur [] = _
              simp [stripOverlapsAux]
            rw [e2] at hP
            rw [e1, hP]
          · have hd : (getOverlapSentences tc cfg.chunk_overlap (lastD ws [])).length
                ≤ cur.length := by
              have h0 := (winChain_snoc _ _ _ _).mp hch
              rcases h0.2 with h' | h'
              · cases hws h'
              · exact h'.length_le
            rw [stripOverlaps_snoc _ _ _ _ hws, List.drop_append_of_le_length hd]
            rw [stripOverlaps_snoc _ _ _ _ hws] at hP
            rw [← List.append_assoc, hP]
        have hch2 : winChain tc cfg.chunk_overlap (ws ++ [cur ++ [s]]) := by
          rw [winChain_snoc]
          have h0 := (winChain_snoc _ _ _ _).mp hch
          exact ⟨h0.1, h0.2.imp id (fun h' => h'.trans (List.prefix_append _ _))⟩
        obtain ⟨ws', cur', h1, h2, h3⟩ := ih ws (cur ++ [s]) (P ++ [s]) hP' hch2
        refine ⟨ws', cur', ?_, ?_, h3⟩
        · rw [hunfold, if_neg hcond, hsum]
          exact h1
        · refine h2.trans ?_
          rw [List.append_assoc]
          rfl

/-- C5 (amended): `_chunk_by_sentences` emits consecutive sentence
windows — consecutively indexed chunk records whose texts are the
windows joined by single spaces — where each window after the first
starts with the overlap computed from its predecessor; removing those
leading overlap sentences and concatenating yields exactly an initial
segment of the document's sentence sequence (everything, unless a
trailing window below `min_chunk_size` was dropped).  Reconstruction is
only up to the sentence splitter: the `[.!?]+\s+` terminators themselves
are consumed.  `chunk_content` routes image/unknown source types straight
to this primitive. -/
theorem chunk_by_sentences_reconstruction (tc : List Char → ℚ) (cfg : ChunkConfig)
    (content : List Char) :
    ∃ (ws : List (List (List Char))) (k : Nat),
      chunkBySentences tc cfg content = chunksOfWindows tc ws 0 ∧
      stripOverlaps tc cfg.chunk_overlap ws = (splitSentences content).take k ∧
      winChain tc cfg.chunk_overlap ws ∧
      (pyStrip content ≠ [] →
        chunkContent tc cfg content "image" = chunkBySentences tc cfg content) := by
  have himg : pyStrip content ≠ [] →
      chunkContent tc cfg content "image" = chunkBySentences tc cfg content := by
    intro h
    unfold chunkContent
    rw [if_neg h, if_neg (by decide), if_neg (by decide), if_neg (by decide), if_pos rfl]
  rcases hsent : splitSentences content with _ | ⟨s, rest⟩
  · refine ⟨[], 0, ?_, rfl, trivial, himg⟩
    unfold chunkBySentences
    rw [hsent]
    rfl
  · obtain ⟨ws', cur', h1, h2, h3⟩ := chunkLoop_windows tc cfg (s :: rest) [] [] [] rfl trivial
    simp only [List.nil_append] at h2
    have h1' : chunkLoop tc cfg (s :: rest) [] [] 0
        = (chunksOfWindows tc ws' 0, cur', ((cur'.map tc).sum)) := by
      have e2 : ((([] : List (List Char)).map tc).sum) = (0 : ℚ) := by simp
      rw [← e2]
      exact h1
    have hmid : chunkBySentences tc cfg content
        = (match chunkLoop tc cfg (s :: rest) [] [] 0 with
           | (chunks, cur, _) =>
              if cur ≠ [] then
                if tc (joinSp cur) ≥ (cfg.min_chunk_size : ℚ) then
                  chunks ++ [createChunk tc (joinSp cur) chunks.length]
                else chunks
              else chunks) := by
      unfold chunkBySentences
      rw [hsent]
    have hout : chunkBySentences tc cfg content
        = (if cur' ≠ [] then
            if tc (joinSp cur') ≥ (cfg.min_chunk_size : ℚ) then
              chunksOfWindows tc ws' 0
                ++ [createChunk tc (joinSp cur') (chunksOfWindows tc ws' 0).length]
            else chunksOfWindows tc ws' 0
          else chunksOfWindows tc ws' 0) := by
      rw [hmid, h1']
    by_cases hcur : cur' = []
    · subst hcur
      refine ⟨ws', (stripOverlaps tc cfg.chunk_overlap ws').length, ?_, ?_, ?_, himg⟩
      · rw [hout]
        simp
      · rcases eq_or_ne ws' [] with hwse | hwse
        · subst hwse
          simp only [List.nil_append] at h2
          have e : stripOverlaps tc cfg.chunk_overlap [([] : List (List Char))] = [] := rfl
          rw [e] at h2
          cases h2
        · rw [stripOverlaps_snoc _ _ _ _ hwse] at h2
          simp only [List.drop_nil, List.append_nil] at h2
          rw [h2]
          exact (List.take_length _).symm
      · exact ((winChain_snoc _ _ _ _).mp h3).1
    · by_cases hmin : tc (joinSp cur') ≥ (cfg.min_chunk_size : ℚ)
      · refine ⟨ws' ++ [cur'], (s :: rest).length, ?_, ?_, h3, himg⟩
        · rw [hout, if_pos hcur, if_pos hmin, chunksOfWindows_length, chunksOfWindows_snoc]
          simp
        · rw [h2]
          exact (List.take_length _).symm
      · refine ⟨ws', (stripOverlaps tc cfg.chunk_overlap ws').length, ?_, ?_,
          ((winChain_snoc _ _ _ _).mp h3).1, himg⟩
        · rw [hout, if_pos hcur, if_neg hmin]
        · rcases eq_or_ne ws' [] with hwse | hwse
          · subst hwse
            rfl
          · rw [stripOverlaps_snoc _ _ _ _ hwse] at h2
            rw [← h2]
            exact (List.take_left _ _).symm

/-- Witness: the dispatch implication of `chunk_by_sentences_reconstruction`
discharged at concrete content. -/
theorem chunk_by_sentences_reconstruction_witness :
    chunkContent fallbackCount ⟨500, 100, 0⟩ "ab cd. ef gh.".toList "image"
      = chunkBySentences fallbackCount ⟨500, 100, 0⟩ "ab cd. ef gh.".toList := by
  obtain ⟨ws, k, h1, h2, h3, h4⟩ :=
    chunk_by_sentences_reconstruction fallbackCount ⟨500, 100, 0⟩ "ab cd. ef gh.".toList
  exact h4 (by decide)

/-- C5 counterexample: chunking "ab cd. ef gh." (min_chunk_size 0) yields
the single passage "ab cd ef gh." — the sentence terminator is dropped,
so no concatenation of passages reconstructs the content even up to
whitespace normalization; and with the default min_chunk_size 50 the
whole (short) document is silently dropped: text is lost. -/
theorem chunk_content_loses_text_counterexample :
    (chunkContent fallbackCount ⟨500, 100, 0⟩ "ab cd. ef gh.".toList "text").map
        ChunkRec.content = ["ab cd ef gh.".toList] ∧
    normalizeWs "ab cd ef gh.".toList ≠ normalizeWs "ab cd. ef gh.".toList ∧
    chunkContent fallbackCount ⟨500, 100, 50⟩ "hello there. bye now.".toList "text" = [] ∧
    pyStrip "hello there. bye now.".toList ≠ [] := by
  refine ⟨by with_unfolding_all decide, by decide, by with_unfolding_all decide, by decide⟩

/-- C7: `_chunk_document` extends the document's chunk list with each
section's independently computed chunks, so the `chunk_index` metadata
restarts at 0 for every section: a two-section text document yields
indices [0, 0] instead of the claimed [0, 1]. -/
theorem chunk_index_restarts_per_section :
    (chunkContent fallbackCount ⟨500, 100, 0⟩
        "HEADER ONE\nalpha beta\nHEADER TWO\ngamma delta".toList "text").map
        ChunkRec.chunk_index = [0, 0] ∧
    ([0, 0] : List Nat) ≠ [0, 1] := by
  refine ⟨by with_unfolding_all decide, by decide⟩
